import Mathlib

/-!
Verification of the CSV ingestion and normalization pipeline of the
prop-trenz repository (`src/lib/data-processor.ts`, helpers in the
supabase client module).

Strings are modelled as `List Char` (JS strings over Unicode code points;
all characters involved are in the BMP, so code points and UTF-16 units
coincide).  JS numbers that only ever hold integral values are modelled as
`Int`; the price-index value, produced by `parseFloat`, is modelled by
`JSNum` (NaN / ±Infinity / exact finite value as a rational — the parsed
decimal literals are kept exact, no arithmetic is performed on them).
External storage calls are modelled by an environment that supplies the
outcome of each call, and the writes the pipeline issues are recorded as
an explicit effect trace.
-/

/-- JS strings as lists of characters. -/
abbrev JStr := List Char

/-- JS regex word characters (`\w` = `[A-Za-z0-9_]`, ASCII only). -/
def isWordChar (c : Char) : Bool :=
  (('A' ≤ c) && (c ≤ 'Z')) || (('a' ≤ c) && (c ≤ 'z')) ||
  (('0' ≤ c) && (c ≤ '9')) || (c == '_')

/-- Word-character class of an optional character; the absent character
(string edge) counts as a non-word character, as in the JS `\b` semantics. -/
def classOf : Option Char → Bool
  | none => false
  | some c => isWordChar c

/-- Whitespace characters recognised by JS `String.prototype.trim`
(ECMAScript WhiteSpace plus LineTerminator). -/
def jsWs (c : Char) : Bool :=
  c == ' ' || c == '\t' || c == '\n' || c == '\u000D' ||
  c == '\u000B' || c == '\u000C' || c == '\u00A0' || c == '\uFEFF' ||
  c == '\u1680' || (('\u2000' ≤ c) && (c ≤ '\u200A')) ||
  c == '\u2028' || c == '\u2029' || c == '\u202F' ||
  c == '\u205F' || c == '\u3000'

/-- JS `String.prototype.trim`: strip whitespace from both ends. -/
def jsTrim (s : JStr) : JStr :=
  ((s.dropWhile jsWs).reverse.dropWhile jsWs).reverse

/-- JS `String.prototype.split` with a single-character separator:
`n` separators produce `n + 1` fields (possibly empty). -/
def splitOnChar (sep : Char) : JStr → List JStr
  | [] => [[]]
  | c :: cs =>
    if c = sep then [] :: splitOnChar sep cs
    else
      match splitOnChar sep cs with
      | [] => [[c]]
      | f :: fs => (c :: f) :: fs

/-- JS `String.prototype.replace` with a plain one-character string
pattern: replaces only the first occurrence. -/
def replaceFirstChar (a b : Char) : JStr → JStr
  | [] => []
  | c :: cs => if c = a then b :: cs else c :: replaceFirstChar a b cs

/-! ### The text normalizer (`convertToUTF8` / `normalizeText`)

The source applies, in order, 14 global regex replacements for mis-encoded
accented characters (plain two-character literals) and then 21 global
regex replacements for known place-name corruptions (word-boundary
anchored literals, one of them with an optional character, i.e. two
literal alternatives tried longest first).  A global literal replace scans
the input left to right, replacing each non-overlapping match; `\b`
conditions are evaluated on the input string. -/

/-- One replacement rule: a list of literal alternatives (tried in order,
as the regexes `X` or `Xh?Y` do), the replacement text, and whether the
regex is anchored with `\b` on both sides. -/
structure Rule where
  pats : List JStr
  repl : JStr
  wb : Bool

/-- Try to match literal `p` at the head of `s`, where `prev` is the
character just before `s` in the overall input (`none` at the string
start).  Returns the remainder after the match.  `\b` on each side holds
iff the word-character classes on the two sides of the boundary differ. -/
def matchPat (wb : Bool) (prev : Option Char) (p s : JStr) : Option JStr :=
  match p with
  | [] => none
  | p0 :: _ =>
    if s.take p.length = p then
      let rest := s.drop p.length
      if ((!wb) || (classOf prev != isWordChar p0)) &&
         ((!wb) || (classOf rest.head? != isWordChar (List.getLastD p p0)))
      then some rest
      else none
    else none

/-- First alternative of `pats` that matches at the head of `s`. -/
def findMatchGo (wb : Bool) (prev : Option Char) (s : JStr) :
    List JStr → Option (JStr × JStr)
  | [] => none
  | p :: ps =>
    match matchPat wb prev p s with
    | some rest => some (p, rest)
    | none => findMatchGo wb prev s ps

/-- First alternative of rule `R` that matches at the head of `s`. -/
def findMatch (R : Rule) (prev : Option Char) (s : JStr) :
    Option (JStr × JStr) :=
  findMatchGo R.wb prev s R.pats

/-- One left-to-right global-replace pass of rule `R` over the input,
fuelled for structural termination (the fuel is always at least the
length of the remaining input, so it is never exhausted). -/
def applyRuleAux (R : Rule) : Nat → Option Char → JStr → JStr
  | 0, _, s => s
  | fuel + 1, prev, s =>
    match s with
    | [] => []
    | c :: cs =>
      match findMatch R prev (c :: cs) with
      | some (p, rest) =>
          R.repl ++ applyRuleAux R fuel (some (List.getLastD p c)) rest
      | none => c :: applyRuleAux R fuel (some c) cs

/-- JS `text.replace(regexp-with-g, repl)` for a literal (alternative)
pattern: global replace, scanning from the given previous character. -/
def applyRule (R : Rule) (prev : Option Char) (s : JStr) : JStr :=
  applyRuleAux R s.length prev s

/-- Helper to build a rule from string literals. -/
def strRule (wb : Bool) (ps : List String) (r : String) : Rule :=
  ⟨ps.map String.data, r.data, wb⟩

/-- The `encodingMap` table of `convertToUTF8`, in insertion order. -/
def encodingRules : List Rule := [
  strRule false ["Ã¡"] "á",
  strRule false ["Ã©"] "é",
  strRule false ["Ã­"] "í",
  strRule false ["Ã³"] "ó",
  strRule false ["Ãº"] "ú",
  strRule false ["Ã\u0081"] "Á",
  strRule false ["Ã\u0089"] "É",
  strRule false ["Ã\u008d"] "Í",
  strRule false ["Ã\u0093"] "Ó",
  strRule false ["Ã\u009a"] "Ú",
  strRule false ["Ã±"] "ñ",
  strRule false ["Ã\u0091"] "Ñ",
  strRule false ["Ã¼"] "ü",
  strRule false ["Ã\u009c"] "Ü"]

/-- The `locationPatterns` table of `convertToUTF8`, in order.  The
pattern `\bBah?a de Banderas\b` has the two literal alternatives
(`h` present tried first, as the greedy `h?` does). -/
def locationRules : List Rule := [
  strRule true ["Len"] "León",
  strRule true ["Nuevo Len"] "Nuevo León",
  strRule true ["Mxico"] "México",
  strRule true ["Ciudad de Mxico"] "Ciudad de México",
  strRule true ["Qutaro"] "Querétaro",
  strRule true ["Quertaro"] "Querétaro",
  strRule true ["Zacatecas"] "Zacatecas",
  strRule true ["Jurez"] "Juárez",
  strRule true ["Benito Jurez"] "Benito Juárez",
  strRule true ["Acapulco de Jurez"] "Acapulco de Juárez",
  strRule true ["Baha"] "Bahía",
  strRule true ["Baha de Banderas", "Baa de Banderas"] "Bahía de Banderas",
  strRule true ["Gutrrez"] "Gutiérrez",
  strRule true ["Tuxtla Gutrrez"] "Tuxtla Gutiérrez",
  strRule true ["Culiacn"] "Culiacán",
  strRule true ["Garca"] "García",
  strRule true ["ZM Qutaro"] "ZM Querétaro",
  strRule true ["ZM Quertaro"] "ZM Querétaro",
  strRule true ["ZM Len"] "ZM León",
  strRule true ["ZM Mxico"] "ZM México",
  strRule true ["ZM Valle Mxico"] "ZM Valle México"]

/-- All replacement rules of `convertToUTF8`, in application order. -/
def normRules : List Rule := encodingRules ++ locationRules

/-- Apply a list of rules in order (each one as a global replace). -/
def foldRules (rs : List Rule) (s : JStr) : JStr :=
  rs.foldl (fun t R => applyRule R none t) s

/-- `convertToUTF8` from the source: empty input returned unchanged,
otherwise the encoding-map replacements followed by the location-pattern
replacements (the `try`/`catch` around the body can never fire in this
pure model). -/
def convertToUTF8 (s : JStr) : JStr :=
  if s = [] then s else foldRules normRules s

/-- `normalizeText` from the source: empty input returned unchanged,
otherwise `convertToUTF8`. -/
def normalizeText (s : JStr) : JStr :=
  if s = [] then s else convertToUTF8 s

/-! ### JS number parsing (`parseInt`, `parseFloat`) -/

/-- Decimal digit value. -/
def digitVal (c : Char) : Option Nat :=
  if ('0' ≤ c) ∧ (c ≤ '9') then some (c.toNat - '0'.toNat) else none

/-- Hexadecimal digit value. -/
def hexDigitVal (c : Char) : Option Nat :=
  if ('0' ≤ c) ∧ (c ≤ '9') then some (c.toNat - '0'.toNat)
  else if ('a' ≤ c) ∧ (c ≤ 'f') then some (c.toNat - 'a'.toNat + 10)
  else if ('A' ≤ c) ∧ (c ≤ 'F') then some (c.toNat - 'A'.toNat + 10)
  else none

/-- Longest digit run at the head of the string, with the remainder. -/
def takeDigits (f : Char → Option Nat) : JStr → (List Nat × JStr)
  | [] => ([], [])
  | c :: cs =>
    match f c with
    | some d =>
      match takeDigits f cs with
      | (ds, r) => (d :: ds, r)
    | none => ([], c :: cs)

/-- Value of a digit run in the given base. -/
def digitsToNat (base : Nat) (ds : List Nat) : Nat :=
  ds.foldl (fun a d => a * base + d) 0

/-- Optional sign at the head of the string: (negative?, remainder). -/
def jsSign : JStr → (Bool × JStr)
  | [] => (false, [])
  | c :: cs =>
    if c = '-' then (true, cs)
    else if c = '+' then (false, cs)
    else (false, c :: cs)

/-- JS `parseInt(s) || 0`: skip leading whitespace, optional sign,
`0x`/`0X` hex prefix or decimal digits; a digit run is parsed as the
number, anything else gives NaN, which `|| 0` turns into 0. -/
def jsParseIntOr0 (s : JStr) : Int :=
  let t := s.dropWhile jsWs
  let (neg, t1) := jsSign t
  let (isHex, t2) :=
    match t1 with
    | '0' :: 'x' :: r => (true, r)
    | '0' :: 'X' :: r => (true, r)
    | _ => (false, t1)
  let (ds, _) := takeDigits (if isHex then hexDigitVal else digitVal) t2
  if ds = [] then 0
  else (if neg then -1 else 1) * (digitsToNat (if isHex then 16 else 10) ds : Int)

/-- A JS number as produced by `parseFloat`: NaN, an infinity, or a
finite value.  The finite value of a decimal literal is kept exact as a
rational (no arithmetic is ever performed on index values downstream). -/
inductive JSNum where
  | nan : JSNum
  | posInf : JSNum
  | negInf : JSNum
  | fin : ℚ → JSNum
deriving DecidableEq

/-- JS `parseFloat`: skip leading whitespace, optional sign, `Infinity`,
or the longest prefix of the form `digits [. digits] [e|E [sign] digits]`
with at least one digit in the integer or fraction part; no such prefix
gives NaN.  A trailing `e` without digits is not consumed. -/
def jsParseFloat (s : JStr) : JSNum :=
  let t := s.dropWhile jsWs
  let (neg, t1) := jsSign t
  if t1.take 8 = "Infinity".data then (if neg then .negInf else .posInf)
  else
    let (ids, r1) := takeDigits digitVal t1
    let (fds, r2) :=
      match r1 with
      | '.' :: rr => takeDigits digitVal rr
      | _ => ([], r1)
    if ids = [] ∧ fds = [] then .nan
    else
      let mantissa : ℚ :=
        (digitsToNat 10 ids : ℚ) + (digitsToNat 10 fds : ℚ) / ((10 : ℚ) ^ fds.length)
      let expVal : Int :=
        match r2 with
        | e :: rr =>
          if e = 'e' ∨ e = 'E' then
            let (eneg, rr1) := jsSign rr
            let (eds, _) := takeDigits digitVal rr1
            if eds = [] then 0
            else (if eneg then -1 else 1) * (digitsToNat 10 eds : Int)
          else 0
        | [] => 0
      let q : ℚ := mantissa * (10 : ℚ) ^ expVal
      .fin (if neg then -q else q)

/-! ### The row parser (`parseCSV`) -/

/-- One raw CSV row (`SHFDataRow` in the source). -/
structure SHFDataRow where
  consecutivo : Int
  global : JStr
  estado : JStr
  municipio : JStr
  trimestre : Int
  -- `año` in the source; Lean identifiers do not allow the accented letter
  anio : Int
  indice : JStr
deriving DecidableEq

/-- Does `p` start the string `s` (JS `String.prototype.startsWith`)? -/
def jsStarts (p s : JStr) : Bool := s.take p.length == p

/-- Processing of one post-header line of the CSV, mirroring one
iteration of the `parseCSV` loop: trim the line, skip it when blank,
split on `;`, skip it when it has fewer than 7 fields, otherwise build
the row (the `try`/`catch` around the row construction can never fire:
none of the operations throws).  The index field defaults to `"0"` when
blank and has its first comma replaced by a period. -/
def parseRowLine (l : JStr) : Option SHFDataRow :=
  let line := jsTrim l
  if line = [] then none
  else
    let columns := splitOnChar ';' line
    if columns.length < 7 then none
    else some {
      consecutivo := jsParseIntOr0 (columns.getD 0 []),
      global := normalizeText (jsTrim (columns.getD 1 [])),
      estado := normalizeText (jsTrim (columns.getD 2 [])),
      municipio := normalizeText (jsTrim (columns.getD 3 [])),
      trimestre := jsParseIntOr0 (columns.getD 4 []),
      anio := jsParseIntOr0 (columns.getD 5 []),
      indice := replaceFirstChar ',' '.'
        (if jsTrim (columns.getD 6 []) = [] then "0".data
         else jsTrim (columns.getD 6 [])) }

/-- The `parseCSV` loop over the post-header lines. -/
def parseCSVGo : List JStr → List SHFDataRow
  | [] => []
  | l :: ls =>
    match parseRowLine l with
    | some r => r :: parseCSVGo ls
    | none => parseCSVGo ls

/-- `parseCSV` from the source: split on newlines, skip the header line,
process every remaining line. -/
def parseCSV (csvContent : JStr) : List SHFDataRow :=
  parseCSVGo ((splitOnChar '\n' csvContent).drop 1)

/-! ### Row classification and the location resolver -/

/-- The fixed label→code table built by the processor's constructor. -/
def propertyTypeMap : List (JStr × JStr) := [
  ("Nueva".data, "nueva".data),
  ("Usada".data, "usada".data),
  ("Casa sola".data, "casa_sola".data),
  ("Casa en condominio - depto.".data, "condominio".data),
  ("Media - Residencial".data, "media_residencial".data)]

/-- `propertyTypeMap.has(g)`. -/
def ptMapHas (g : JStr) : Bool := propertyTypeMap.any (fun kv => kv.1 == g)

/-- `propertyTypeMap.get(g)!` (only ever used under a `has` check). -/
def ptMapGet (g : JStr) : JStr :=
  ((propertyTypeMap.find? (fun kv => kv.1 == g)).map Prod.snd).getD []

/-- The residential filter of `processCSV`: exclude the
`Economica - Social` category, keep property-type rows, the national
row, metro-zone rows, and rows with state or municipality data. -/
def isResidentialRow (row : SHFDataRow) : Bool :=
  (row.global != "Economica - Social".data) &&
  ((row.global == "Media - Residencial".data) ||
   ptMapHas row.global ||
   (row.global == "Nacional".data) ||
   jsStarts "ZM ".data row.global ||
   ((row.estado != []) && (jsTrim row.estado != [])) ||
   ((row.municipio != []) && (jsTrim row.municipio != [])))

/-- The canonical key of the national location. -/
def natKey : JStr := "Nacional|national|".data

/-- The key added to `locationSet` for a row by `processLocations`
(lines 254–267 of the source): five cases, the last one treating
property-type rows as national-level data. -/
def locationSetEntry (row : SHFDataRow) : Option JStr :=
  if row.global = "Nacional".data then some natKey
  else if jsStarts "ZM ".data row.global then
    some (row.global ++ "|metro_zone|".data)
  else if row.estado ≠ [] ∧ jsTrim row.estado ≠ [] ∧ row.municipio = [] then
    some (row.estado ++ "|state|".data)
  else if row.estado ≠ [] ∧ jsTrim row.estado ≠ [] ∧
          row.municipio ≠ [] ∧ jsTrim row.municipio ≠ [] then
    some (row.municipio ++ "|municipality|".data ++ row.estado)
  else if ptMapHas row.global ∨ row.global = "Media - Residencial".data then
    some natKey
  else none

/-- The location key recomputed for a row by `processPriceData`
(lines 347–359 of the source): only four cases — there is no
property-type case, such rows fall through to the skip branch. -/
def rowLocationKey (row : SHFDataRow) : Option JStr :=
  if row.global = "Nacional".data then some natKey
  else if jsStarts "ZM ".data row.global then
    some (row.global ++ "|metro_zone|".data)
  else if row.estado ≠ [] ∧ row.municipio = [] then
    some (row.estado ++ "|state|".data)
  else if row.estado ≠ [] ∧ row.municipio ≠ [] then
    some (row.municipio ++ "|municipality|".data ++ row.estado)
  else none

/-- JS `Set.add`: keep insertion order, ignore duplicates. -/
def insertKeyOnce (acc : List JStr) (k : JStr) : List JStr :=
  if k ∈ acc then acc else acc ++ [k]

/-- The deduplicated location-key set of `processLocations`, in
insertion order (`Array.from(locationSet)`). -/
def extractLocationKeys (rows : List SHFDataRow) : List JStr :=
  rows.foldl (fun acc row =>
    match locationSetEntry row with
    | some k => insertKeyOnce acc k
    | none => acc) []

/-- A candidate location built from a key (`ProcessedLocation`). -/
structure ProcessedLocation where
  type : JStr
  name : JStr
  state : Option JStr
deriving DecidableEq

/-- A persisted location row as returned by the storage collaborator's
`getLocations` (`select('*')`): `state` is `none` when the column is SQL
NULL, which surfaces as JS `null`. -/
structure PersistedLocation where
  id : JStr
  type : JStr
  name : JStr
  state : Option JStr
deriving DecidableEq

/-- A persisted property-type row (only the fields the processor reads). -/
structure PropertyType where
  id : JStr
  name : JStr
deriving DecidableEq

/-- Key → candidate location (`locationKey.split('|')`, then re-trim and
re-normalize the name, and normalize the state when non-empty; an empty
state string is falsy, giving `state: undefined`). -/
def keyToLocation (k : JStr) : ProcessedLocation :=
  let parts := splitOnChar '|' k
  { type := parts.getD 1 [],
    name := normalizeText (jsTrim (parts.getD 0 [])),
    state := if parts.getD 2 [] = [] then none
             else some (normalizeText (parts.getD 2 [])) }

/-- The state comparison `loc.state === location.state` of the
existing-location check.  The persisted side is `null` when absent while
the candidate side is `undefined` when absent, and `null === undefined`
is `false` in JS, so the comparison only succeeds when both states are
present and equal. -/
def stateMatches (dbState candState : Option JStr) : Bool :=
  match dbState, candState with
  | some a, some b => a == b
  | _, _ => false

/-- `response.data.find(...)`: first persisted location agreeing with the
candidate on name, type and state (under `===`). -/
def findExisting (locs : List PersistedLocation) (cand : ProcessedLocation) :
    Option PersistedLocation :=
  locs.find? (fun loc =>
    (loc.name == cand.name) && (loc.type == cand.type) &&
    stateMatches loc.state cand.state)

/-- The key under which a candidate is entered into the in-memory
location map: name, type and state-or-empty joined with `|`. -/
def mapKeyOf (cand : ProcessedLocation) : JStr :=
  cand.name ++ "|".data ++ cand.type ++ "|".data ++ (cand.state.getD [])

/-- JS `Map.set` on an association list: overwrite in place or append. -/
def mapSet (m : List (JStr × JStr)) (k v : JStr) : List (JStr × JStr) :=
  if m.any (fun kv => kv.1 == k) then
    m.map (fun kv => if kv.1 == k then (k, v) else kv)
  else m ++ [(k, v)]

/-- JS `Map.get` on an association list. -/
def mapGet (m : List (JStr × JStr)) (k : JStr) : Option JStr :=
  (m.find? (fun kv => kv.1 == k)).map Prod.snd

/-! ### Storage environment, effects, and the pipeline stages -/

/-- One price-index record prepared for insertion
(`ProcessedPriceData`). -/
structure ProcessedPriceData where
  location_id : JStr
  property_type_id : Option JStr
  quarter : Int
  year : Int
  index_value : JSNum
deriving DecidableEq

/-- Upload-log status values. -/
inductive UploadStatus where
  | processing | completed | failed
deriving DecidableEq

/-- The writes the pipeline issues against storage, in order. -/
inductive Effect where
  | logCreated (filename : JStr)
  | logUpdated (status : UploadStatus) (records : Nat)
  | locInserted (loc : ProcessedLocation) (ok : Bool)
  | batchUpserted (idx : Nat) (records : List ProcessedPriceData) (ok : Bool)
deriving DecidableEq

/-- Outcomes of the storage collaborator's calls, one entry per call
site; per-iteration calls are indexed by the iteration counter.  An
`error` value is a call whose response carries an error (or throws). -/
structure Env where
  createLog : Except JStr JStr
  getLocations : Nat → Except JStr (List PersistedLocation)
  insertLocation : Nat → Except JStr JStr
  pt0 : Except JStr Unit
  ptRow : Nat → Except JStr (List PropertyType)
  updateLog : Except JStr Unit
  batchOk : Nat → Bool

/-- Accumulated result of the location-resolution loop. -/
structure LocOutcome where
  locationMap : List (JStr × JStr)
  createdLocs : List ProcessedLocation
  existingCount : Nat
  effects : List Effect
deriving DecidableEq

/-- The per-candidate reconcile-or-create loop of `processLocations`:
a failing `getLocations` or insert is caught and only logged (the key is
skipped); an existing match is reused; otherwise a new location is
inserted and its fresh identifier recorded. -/
def processLocationsGo (env : Env) :
    Nat → List ProcessedLocation → LocOutcome → LocOutcome
  | _, [], acc => acc
  | k, cand :: rest, acc =>
    match env.getLocations k with
    | .error _ => processLocationsGo env (k + 1) rest acc
    | .ok locs =>
      match findExisting locs cand with
      | some ex =>
        processLocationsGo env (k + 1) rest
          { acc with
            locationMap := mapSet acc.locationMap (mapKeyOf cand) ex.id,
            existingCount := acc.existingCount + 1 }
      | none =>
        match env.insertLocation k with
        | .error _ =>
          processLocationsGo env (k + 1) rest
            { acc with effects := acc.effects ++ [.locInserted cand false] }
        | .ok newId =>
          processLocationsGo env (k + 1) rest
            { acc with
              locationMap := mapSet acc.locationMap (mapKeyOf cand) newId,
              createdLocs := acc.createdLocs ++ [cand],
              effects := acc.effects ++ [.locInserted cand true] }

/-- `processLocations` from the source. -/
def processLocations (env : Env) (rows : List SHFDataRow) : LocOutcome :=
  processLocationsGo env 0 ((extractLocationKeys rows).map keyToLocation)
    ⟨[], [], 0, []⟩

/-- One iteration of the `processPriceData` row loop: derive the
location key (four cases), look it up (a missing or falsy identifier
skips the row), resolve the property-type identifier when the category
label is in the label→code table (a failing read or an unknown name
leaves it absent), and build the record.  The index value is
`parseFloat(row.indice)` — an unparsable text yields NaN, not a skip. -/
def buildRecord (env : Env) (k : Nat) (locationMap : List (JStr × JStr))
    (row : SHFDataRow) : Option ProcessedPriceData :=
  match rowLocationKey row with
  | none => none
  | some key =>
    match mapGet locationMap key with
    | none => none
    | some locId =>
      if locId = [] then none
      else
        some { location_id := locId,
               property_type_id :=
                 if ptMapHas row.global then
                   match env.ptRow k with
                   | .error _ => none
                   | .ok pts =>
                     (pts.find? (fun pt => pt.name == ptMapGet row.global)).map
                       PropertyType.id
                 else none,
               quarter := row.trimestre, year := row.anio,
               index_value := jsParseFloat row.indice }

/-- The record-building loop of `processPriceData`: list of records in
row order, processed-row count, skipped-row count. -/
def buildPriceGo (env : Env) (locationMap : List (JStr × JStr)) :
    Nat → List SHFDataRow → (List ProcessedPriceData × Nat × Nat)
  | _, [] => ([], 0, 0)
  | k, row :: rest =>
    match buildPriceGo env locationMap (k + 1) rest with
    | (recs, proc, skip) =>
      match buildRecord env k locationMap row with
      | some rec => (rec :: recs, proc + 1, skip)
      | none => (recs, proc, skip + 1)

/-- Record building over all rows. -/
def buildPrice (env : Env) (rows : List SHFDataRow)
    (locationMap : List (JStr × JStr)) :
    (List ProcessedPriceData × Nat × Nat) :=
  buildPriceGo env locationMap 0 rows

/-- Consecutive chunks: the first `n` elements, then the next `n`, …
(the batching loop `for (i = 0; i < length; i += batchSize)`). -/
def chunkGo (n : Nat) : List α → List α → Nat → List (List α)
  | acc, [], _ => [acc.reverse]
  | acc, x :: xs, 0 => acc.reverse :: chunkGo n [x] xs (n - 1)
  | acc, x :: xs, k + 1 => chunkGo n (x :: acc) xs k

/-- Partition a list into consecutive chunks of at most `n` elements. -/
def chunksOf (n : Nat) (l : List α) : List (List α) :=
  match l with
  | [] => []
  | x :: xs => chunkGo n [x] xs (n - 1)

/-- The batch-persistence loop: one upsert attempt per 1000-element
chunk, each failure caught and only logged. -/
def persistBatches (env : Env) (records : List ProcessedPriceData) :
    List Effect :=
  ((chunksOf 1000 records).enum).map
    (fun ib => .batchUpserted ib.1 ib.2 (env.batchOk ib.1))

/-- Result of `processPriceData`: prepared records (the return value),
row tallies, and the batch-upsert effects. -/
structure PriceOutcome where
  records : List ProcessedPriceData
  processed : Nat
  skipped : Nat
  effects : List Effect
deriving DecidableEq

/-- `processPriceData` from the source. -/
def processPriceData (env : Env) (rows : List SHFDataRow)
    (locationMap : List (JStr × JStr)) : PriceOutcome :=
  match buildPrice env rows locationMap with
  | (recs, proc, skip) =>
    { records := recs, processed := proc, skipped := skip,
      effects := persistBatches env recs }

/-- The structured result returned to the caller. -/
structure RunResult where
  success : Bool
  recordsProcessed : Nat
  error : Option JStr
deriving DecidableEq

/-- Parsed rows after the residential filter. -/
def pipelineRows (csvContent : JStr) : List SHFDataRow :=
  (parseCSV csvContent).filter isResidentialRow

/-- `processCSV` from the source: create the log entry (failure aborts
with a failure result and no effects), parse and filter, resolve
locations, verify property types (a failing read throws, is caught at
the orchestrator boundary, and leaves the log in `processing`), build
and persist price data, then update the log to `completed`; a failing
update also escapes to the catch, again leaving the log as last
written.  The catch always returns a structured failure result with
`recordsProcessed: 0`. -/
def processCSV (env : Env) (csvContent filename : JStr) :
    RunResult × List Effect :=
  match env.createLog with
  | .error msg =>
    ({ success := false, recordsProcessed := 0,
       error := some ("Failed to create upload log: ".data ++ msg) }, [])
  | .ok _logId =>
    let residentialRows := pipelineRows csvContent
    let locOutcome := processLocations env residentialRows
    let fx0 := Effect.logCreated filename :: locOutcome.effects
    match env.pt0 with
    | .error msg =>
      ({ success := false, recordsProcessed := 0,
         error := some ("Failed to get property types: ".data ++ msg) }, fx0)
    | .ok _ =>
      let pd := processPriceData env residentialRows locOutcome.locationMap
      let fx1 := fx0 ++ pd.effects
      match env.updateLog with
      | .error msg =>
        ({ success := false, recordsProcessed := 0, error := some msg }, fx1)
      | .ok _ =>
        ({ success := true, recordsProcessed := pd.records.length,
           error := none }, fx1 ++ [Effect.logUpdated .completed pd.records.length])

/-- `processSHFCSV` from the source, with the file read and encoding
detection abstracted into `readOk`: a failing read is caught and
reported as a structured failure before the processor runs. -/
def processSHFCSV (env : Env) (readOk : Bool) (csvContent filename : JStr) :
    RunResult × List Effect :=
  if readOk then processCSV env csvContent filename
  else ({ success := false, recordsProcessed := 0,
          error := some "Failed to read file".data }, [])

/-! ### Derived views of the effect trace -/

/-- The storage conflict key of the price-index upsert. -/
def sameUpsertKey (a b : ProcessedPriceData) : Bool :=
  (a.location_id == b.location_id) &&
  (a.property_type_id == b.property_type_id) &&
  (a.quarter == b.quarter) && (a.year == b.year)

/-- Upsert of one record: replace the rows matching the conflict key, or
append. -/
def upsertOne (table : List ProcessedPriceData) (r : ProcessedPriceData) :
    List ProcessedPriceData :=
  if table.any (fun t => sameUpsertKey t r) then
    table.map (fun t => if sameUpsertKey t r then r else t)
  else table ++ [r]

/-- Replay the price-table writes of a trace: only successful batch
upserts change the table; nothing is ever deleted. -/
def applyEffects (table : List ProcessedPriceData) (fx : List Effect) :
    List ProcessedPriceData :=
  fx.foldl (fun tbl e =>
    match e with
    | .batchUpserted _ recs true => recs.foldl upsertOne tbl
    | _ => tbl) table

/-- The status of the upload log entry after a trace: the status written
by the last log effect — `processing` for a creation — or `none` when the
entry was never created. -/
def finalLogStatus : List Effect → Option UploadStatus
  | [] => none
  | e :: rest =>
    match finalLogStatus rest with
    | some s => some s
    | none =>
      match e with
      | Effect.logCreated _ => some UploadStatus.processing
      | Effect.logUpdated s _ => some s
      | _ => none

/-- The batch-upsert effects of a trace, in order. -/
def batchEffects (fx : List Effect) : List Effect :=
  fx.filter (fun e =>
    match e with
    | .batchUpserted _ _ _ => true
    | _ => false)

/-! ### Decidable side conditions for the normalizer rules

The idempotence of `normalizeText` rests on syntactic facts about the
rule tables: no pattern of a rule can overlap an occurrence of the
replacement text of the same or of any later rule, and every rule
replaces text whose edge characters have the same word-character class
as the replacement's edges.  These conditions are decidable by direct
computation over the tables. -/

/-- The previous character seen at the position following `a`, starting
from `prev`. -/
def prevAt (prev : Option Char) (a : JStr) : Option Char :=
  match a.getLast? with
  | some c => some c
  | none => prev

/-- No alternative of rule `R` matches at any position of `s` when the
character before `s` is `prev`. -/
def NoMatchF (R : Rule) (prev : Option Char) (s : JStr) : Prop :=
  ∀ a b, s = a ++ b → findMatch R (prevAt prev a) b = none

/-- The aligned-at-0 overlap of `x` and `y` contains a mismatch. -/
def oneConflict (x y : JStr) : Bool :=
  (List.range (min x.length y.length)).any fun i => x[i]? != y[i]?

/-- Every alignment of the word `q` overlapping an occurrence of `r`
hits a character mismatch inside `r`: `q` can never overlap a copy of
`r`, whatever surrounds it. -/
def ConflictsB (q r : JStr) : Bool :=
  ((List.range r.length).all fun d => oneConflict q (r.drop d)) &&
  ((List.range (q.length - 1)).all fun e => oneConflict (q.drop (e + 1)) r)

/-- Patterns and replacement are nonempty and agree on the
word-character class of their first and last characters. -/
def ruleEdgeOk (R : Rule) : Bool :=
  (R.repl != ([] : JStr)) && R.pats.all fun p =>
    (p != ([] : JStr)) &&
    (isWordChar (p.headD ' ') == isWordChar (R.repl.headD ' ')) &&
    (isWordChar (p.getLastD ' ') == isWordChar (R.repl.getLastD ' '))

/-- A rule that replaces its single pattern by itself (a no-op pass). -/
def isIdRule (R : Rule) : Bool := R.pats == [R.repl]

/-- Condition letting a pass of `R` leave no match of `R` behind. -/
def selfOk (R : Rule) : Bool :=
  isIdRule R || (ruleEdgeOk R && R.pats.all fun q => ConflictsB q R.repl)

/-- Condition letting a pass of `R` preserve the absence of matches of
`P`. -/
def laterOk (P R : Rule) : Bool :=
  isIdRule R || (ruleEdgeOk R && P.pats.all fun q => ConflictsB q R.repl)

/-- Every rule satisfies its self condition and is compatible with all
later rules. -/
def rulesOk : List Rule → Bool
  | [] => true
  | R :: rest => selfOk R && rest.all (laterOk R) && rulesOk rest

/-! ### Concrete inputs and environments used in the theorems -/

/-- An environment in which every storage call succeeds; `getLocations`
finds nothing, inserts hand out fresh identifiers `L0`, `L1`, …, and the
property-type table is empty. -/
def okEnv : Env := {
  createLog := .ok "log1".data,
  getLocations := fun _ => .ok [],
  insertLocation := fun k => .ok ("L".data ++ (Nat.repr k).data),
  pt0 := .ok (),
  ptRow := fun _ => .ok [],
  updateLog := .ok (),
  batchOk := fun _ => true }

/-- The parsed row of the CSV line `4;Usada;;;1;2020;100,5`. -/
def usadaRow : SHFDataRow := ⟨4, "Usada".data, [], [], 1, 2020, "100.5".data⟩

/-- A CSV with one property-type data row. -/
def usadaCSV : JStr := "header\n4;Usada;;;1;2020;100,5".data

/-- The parsed row of the CSV line `1;Nacional;;;1;2020;abc` (an index
value that does not parse as a number). -/
def nanRow : SHFDataRow := ⟨1, "Nacional".data, [], [], 1, 2020, "abc".data⟩

/-- A CSV whose single data row has an unparsable index value. -/
def nanCSV : JStr := "header\n1;Nacional;;;1;2020;abc".data

/-- A persisted national location with SQL NULL state, as returned by
`getLocations` after any earlier run created it. -/
def natPersisted : PersistedLocation :=
  ⟨"L1".data, "national".data, "Nacional".data, none⟩

/-- Environment in which storage already holds `natPersisted` and an
insert would hand out the fresh identifier `L2`. -/
def c6Env : Env :=
  { okEnv with
    getLocations := fun _ => .ok [natPersisted],
    insertLocation := fun _ => .ok "L2".data }

/-- Environment whose property-type read fails (the error escapes
`processPropertyTypes` as a thrown exception). -/
def ptErrEnv : Env := { okEnv with pt0 := .error "boom".data }

/-- Environment whose final upload-log update fails. -/
def updErrEnv : Env := { okEnv with updateLog := .error "update failed".data }

/-- Environment in which the upload-log insert fails. -/
def clErrEnv : Env := { okEnv with createLog := .error "denied".data }

/-- Environment in which every batch upsert fails. -/
def batchFailEnv : Env := { okEnv with batchOk := fun _ => false }

/-- A CSV with two national data rows. -/
def twoRowCSV : JStr :=
  "header\n1;Nacional;;;1;2020;100,5\n2;Nacional;;;2;2020;101,5".data

/-- The parsed row of the CSV line `1;Nacional;;;1;2020;100,5`. -/
def nacionalRow : SHFDataRow := ⟨1, "Nacional".data, [], [], 1, 2020, "100.5".data⟩

/-- The records prepared by the pipeline for a CSV before persistence
begins (the list `processCSV` reports the length of on success). -/
def preparedRecords (env : Env) (csvContent : JStr) : List ProcessedPriceData :=
  (processPriceData env (pipelineRows csvContent)
    (processLocations env (pipelineRows csvContent)).locationMap).records

/-- No alternative of `R` matches at a position strictly inside `a` when
`a` is followed by `tail` (the scanned region before a found match). -/
def FreeBefore (R : Rule) (prev : Option Char) (a tail : JStr) : Prop :=
  ∀ a1 c a2, a = a1 ++ c :: a2 →
    findMatch R (prevAt prev a1) (c :: (a2 ++ tail)) = none

/-! ## Theorems

### Basic properties of the literal-replacement scanner -/

theorem take_eq_append {p s : JStr} (h : s.take p.length = p) :
    s = p ++ s.drop p.length := by
  conv_lhs => rw [← List.take_append_drop p.length s, h]

theorem matchPat_eq_some {wb : Bool} {prev : Option Char} {p s rest : JStr}
    (h : matchPat wb prev p s = some rest) :
    p ≠ [] ∧ s = p ++ rest := by
  cases p with
  | nil => simp [matchPat] at h
  | cons p0 pr =>
    simp only [matchPat] at h
    split at h
    · split at h
      · refine ⟨by simp, ?_⟩
        cases h
        exact take_eq_append (by assumption)
      · cases h
    · cases h

theorem matchPat_nil_right {wb : Bool} {prev : Option Char} {p : JStr} :
    matchPat wb prev p ([] : JStr) = none := by
  cases p with
  | nil => rfl
  | cons p0 pr => simp [matchPat]

theorem matchPat_none_of_take {wb : Bool} {prev : Option Char} {p s : JStr}
    (h : ¬ (s.take p.length = p)) : matchPat wb prev p s = none := by
  cases p with
  | nil => rfl
  | cons p0 pr => simp only [matchPat, if_neg h]

theorem findMatchGo_eq_some {wb : Bool} {prev : Option Char} {s : JStr}
    {pats : List JStr} {p rest : JStr}
    (h : findMatchGo wb prev s pats = some (p, rest)) :
    p ∈ pats ∧ matchPat wb prev p s = some rest := by
  induction pats with
  | nil => simp [findMatchGo] at h
  | cons q qs ih =>
    simp only [findMatchGo] at h
    cases hq : matchPat wb prev q s with
    | some r =>
      rw [hq] at h
      cases h
      exact ⟨List.mem_cons_self _ _, hq⟩
    | none =>
      rw [hq] at h
      have := ih h
      exact ⟨List.mem_cons_of_mem _ this.1, this.2⟩

theorem findMatchGo_none_iff {wb : Bool} {prev : Option Char} {s : JStr}
    {pats : List JStr} :
    findMatchGo wb prev s pats = none ↔
      ∀ p ∈ pats, matchPat wb prev p s = none := by
  induction pats with
  | nil => simp [findMatchGo]
  | cons q qs ih =>
    simp only [findMatchGo]
    cases hq : matchPat wb prev q s with
    | some r => simp [hq]
    | none => simp [hq, ih]

theorem findMatch_eq_some {R : Rule} {prev : Option Char} {s p rest : JStr}
    (h : findMatch R prev s = some (p, rest)) :
    p ∈ R.pats ∧ p ≠ [] ∧ s = p ++ rest := by
  have h1 := findMatchGo_eq_some h
  have h2 := matchPat_eq_some h1.2
  exact ⟨h1.1, h2.1, h2.2⟩

theorem findMatch_nil {R : Rule} {prev : Option Char} :
    findMatch R prev ([] : JStr) = none := by
  unfold findMatch
  exact findMatchGo_none_iff.mpr (fun p _ => matchPat_nil_right)

theorem matchPat_classOf_congr {wb : Bool} {p s : JStr} {pv1 pv2 : Option Char}
    (h : classOf pv1 = classOf pv2) :
    matchPat wb pv1 p s = matchPat wb pv2 p s := by
  cases p with
  | nil => rfl
  | cons p0 pr => simp only [matchPat, h]

theorem findMatch_classOf_congr {R : Rule} {s : JStr} {pv1 pv2 : Option Char}
    (h : classOf pv1 = classOf pv2) :
    findMatch R pv1 s = findMatch R pv2 s := by
  unfold findMatch
  induction R.pats with
  | nil => rfl
  | cons q qs ih => simp only [findMatchGo, matchPat_classOf_congr h, ih]

theorem getLastD_irrel {p : JStr} (hp : p ≠ []) (a b : Char) :
    p.getLastD a = p.getLastD b := by
  rw [List.getLastD_eq_getLast?, List.getLastD_eq_getLast?]
  cases hl : p.getLast? with
  | none => exact absurd (List.getLast?_eq_none_iff.mp hl) hp
  | some c => rfl

theorem applyRuleAux_congr (R : Rule) :
    ∀ fuel1 fuel2 : Nat, ∀ prev : Option Char, ∀ s : JStr,
      s.length ≤ fuel1 → s.length ≤ fuel2 →
      applyRuleAux R fuel1 prev s = applyRuleAux R fuel2 prev s := by
  intro fuel1
  induction fuel1 with
  | zero =>
    intro fuel2 prev s h1 _
    have : s = [] := List.length_eq_zero.mp (Nat.le_zero.mp h1)
    subst this
    cases fuel2 <;> rfl
  | succ f ih =>
    intro fuel2 prev s h1 h2
    cases s with
    | nil => cases fuel2 <;> rfl
    | cons c cs =>
      cases fuel2 with
      | zero => exact absurd h2 (by simp)
      | succ g =>
        cases hm : findMatch R prev (c :: cs) with
        | none =>
          have hlen : cs.length ≤ f := by
            simp only [List.length_cons] at h1; omega
          have hlen2 : cs.length ≤ g := by
            simp only [List.length_cons] at h2; omega
          simp only [applyRuleAux, hm]
          rw [ih g (some c) cs hlen hlen2]
        | some pr =>
          obtain ⟨p, rest⟩ := pr
          have h3 := findMatch_eq_some hm
          have hrl : rest.length ≤ f := by
            have := congrArg List.length h3.2.2
            simp only [List.length_cons, List.length_append] at this
            have hp1 : 1 ≤ p.length := by
              cases p with
              | nil => exact absurd rfl h3.2.1
              | cons _ _ => simp
            simp only [List.length_cons] at h1
            omega
          have hrl2 : rest.length ≤ g := by
            have := congrArg List.length h3.2.2
            simp only [List.length_cons, List.length_append] at this
            have hp1 : 1 ≤ p.length := by
              cases p with
              | nil => exact absurd rfl h3.2.1
              | cons _ _ => simp
            simp only [List.length_cons] at h2
            omega
          simp only [applyRuleAux, hm]
          rw [ih g (some (p.getLastD c)) rest hrl hrl2]

theorem applyRule_nil {R : Rule} {prev : Option Char} :
    applyRule R prev [] = [] := rfl

theorem applyRule_cons_match {R : Rule} {prev : Option Char} {c : Char}
    {cs p rest : JStr} (h : findMatch R prev (c :: cs) = some (p, rest)) :
    applyRule R prev (c :: cs) =
      R.repl ++ applyRule R (some (p.getLastD ' ')) rest := by
  have h3 := findMatch_eq_some h
  unfold applyRule
  simp only [List.length_cons, applyRuleAux, h]
  rw [getLastD_irrel h3.2.1 c ' ']
  congr 1
  apply applyRuleAux_congr
  · have := congrArg List.length h3.2.2
    simp only [List.length_cons, List.length_append] at this
    have hp1 : 1 ≤ p.length := by
      cases p with
      | nil => exact absurd rfl h3.2.1
      | cons _ _ => simp
    omega
  · exact Nat.le_refl _

theorem applyRule_cons_noMatch {R : Rule} {prev : Option Char} {c : Char}
    {cs : JStr} (h : findMatch R prev (c :: cs) = none) :
    applyRule R prev (c :: cs) = c :: applyRule R (some c) cs := by
  unfold applyRule
  simp only [List.length_cons, applyRuleAux, h]

theorem prevAt_nil {prev : Option Char} : prevAt prev [] = prev := rfl

theorem prevAt_of_ne_nil {prev1 prev2 : Option Char} {a : JStr} (h : a ≠ []) :
    prevAt prev1 a = prevAt prev2 a := by
  unfold prevAt
  cases hl : a.getLast? with
  | none => exact absurd (List.getLast?_eq_none_iff.mp hl) h
  | some c => rfl

theorem prevAt_eq_getLastD {prev : Option Char} {a : JStr} (h : a ≠ []) :
    prevAt prev a = some (a.getLastD ' ') := by
  unfold prevAt
  rw [List.getLastD_eq_getLast?]
  cases hl : a.getLast? with
  | none => exact absurd (List.getLast?_eq_none_iff.mp hl) h
  | some c => rfl

theorem prevAt_cons {prev : Option Char} {c : Char} {a : JStr} :
    prevAt prev (c :: a) = prevAt (some c) a := by
  cases a with
  | nil => rfl
  | cons x a' =>
    unfold prevAt
    rw [List.getLast?_cons_cons]
    cases hl : (x :: a').getLast? with
    | none => exact absurd (List.getLast?_eq_none_iff.mp hl) (by simp)
    | some d => rfl

theorem prevAt_append {prev : Option Char} {x y : JStr} :
    prevAt prev (x ++ y) = prevAt (prevAt prev x) y := by
  cases hy : y with
  | nil => rw [List.append_nil]; rfl
  | cons c y' =>
    have h2 : (c : Char) :: y' ≠ ([] : JStr) := by simp
    unfold prevAt
    rw [List.getLast?_append_of_ne_nil x h2]
    cases hl : (c :: y').getLast? with
    | none => exact absurd (List.getLast?_eq_none_iff.mp hl) h2
    | some d => rfl

theorem noMatchF_nil {R : Rule} {prev : Option Char} : NoMatchF R prev [] := by
  intro a b hab
  have ha : a = [] := by
    cases a with
    | nil => rfl
    | cons _ _ => simp at hab
  have hb : b = [] := by
    subst ha; simpa using hab
  subst ha; subst hb
  exact findMatch_nil

theorem NoMatchF.head {R : Rule} {prev : Option Char} {s : JStr}
    (h : NoMatchF R prev s) : findMatch R prev s = none := by
  have := h [] s rfl
  rwa [prevAt_nil] at this

theorem NoMatchF.tail {R : Rule} {prev : Option Char} {c : Char} {cs : JStr}
    (h : NoMatchF R prev (c :: cs)) : NoMatchF R (some c) cs := by
  intro a b hab
  have := h (c :: a) b (by rw [hab]; rfl)
  rwa [prevAt_cons] at this

theorem noMatchF_classOf_congr {R : Rule} {s : JStr} {pv1 pv2 : Option Char}
    (hcl : classOf pv1 = classOf pv2) (h : NoMatchF R pv1 s) :
    NoMatchF R pv2 s := by
  intro a b hab
  cases ha : a with
  | nil =>
    subst ha
    rw [prevAt_nil, ← findMatch_classOf_congr hcl]
    have := h [] b hab
    rwa [prevAt_nil] at this
  | cons c a' =>
    subst ha
    have hp : prevAt pv2 (c :: a') = prevAt pv1 (c :: a') :=
      prevAt_of_ne_nil (by simp)
    rw [hp]
    exact h _ b hab

theorem applyRule_of_noMatchF {R : Rule} {prev : Option Char} {s : JStr}
    (h : NoMatchF R prev s) : applyRule R prev s = s := by
  induction s generalizing prev with
  | nil => rfl
  | cons c cs ih =>
    rw [applyRule_cons_noMatch h.head, ih h.tail]

theorem applyRule_isIdRule {R : Rule} (h : isIdRule R = true) :
    ∀ n : Nat, ∀ s : JStr, ∀ prev : Option Char, s.length ≤ n →
      applyRule R prev s = s := by
  have hpats : R.pats = [R.repl] := by
    simpa [isIdRule] using h
  intro n
  induction n with
  | zero =>
    intro s prev hl
    have : s = [] := List.length_eq_zero.mp (Nat.le_zero.mp hl)
    subst this; rfl
  | succ m ih =>
    intro s prev hl
    cases s with
    | nil => rfl
    | cons c cs =>
      cases hm : findMatch R prev (c :: cs) with
      | none =>
        rw [applyRule_cons_noMatch hm]
        rw [ih cs (some c) (by simp only [List.length_cons] at hl; omega)]
      | some pr =>
        obtain ⟨p, rest⟩ := pr
        have h3 := findMatch_eq_some hm
        have hp : p = R.repl := by
          have := h3.1
          rw [hpats] at this
          simpa using this
        rw [applyRule_cons_match hm]
        have hrest : rest.length ≤ m := by
          have := congrArg List.length h3.2.2
          simp only [List.length_cons, List.length_append] at this
          have hp1 : 1 ≤ p.length := by
            cases p with
            | nil => exact absurd rfl h3.2.1
            | cons _ _ => simp
          simp only [List.length_cons] at hl
          omega
        rw [ih rest _ hrest, ← hp, ← h3.2.2]

/-! ### Conflict conditions: a pattern can never overlap a replacement -/

theorem oneConflict_spec {x y : JStr} (h : oneConflict x y = true) :
    ∃ i, i < x.length ∧ i < y.length ∧ x[i]? ≠ y[i]? := by
  unfold oneConflict at h
  rw [List.any_eq_true] at h
  obtain ⟨i, hi, hne⟩ := h
  rw [List.mem_range, Nat.lt_min] at hi
  exact ⟨i, hi.1, hi.2, by simpa using hne⟩

theorem conflictsB_first {q r : JStr} (h : ConflictsB q r = true) {d : Nat}
    (hd : d < r.length) : oneConflict q (r.drop d) = true := by
  unfold ConflictsB at h
  rw [Bool.and_eq_true] at h
  exact List.all_eq_true.mp h.1 d (List.mem_range.mpr hd)

theorem conflictsB_drop {q r : JStr} (h : ConflictsB q r = true) {u : Nat}
    (hu : u < q.length) (hr : r ≠ []) : oneConflict (q.drop u) r = true := by
  cases u with
  | zero => simpa using conflictsB_first h (Nat.pos_of_ne_zero (by simpa using hr))
  | succ v =>
    unfold ConflictsB at h
    rw [Bool.and_eq_true] at h
    exact List.all_eq_true.mp h.2 v (List.mem_range.mpr (by omega))

theorem no_overlap_take {q u r Z : JStr} (hconf : ConflictsB q r = true)
    (hu : u.length < q.length) (hr : r ≠ []) :
    ¬ ((u ++ (r ++ Z)).take q.length = q) := by
  intro hTake
  obtain ⟨i, hi1, hi2, hne⟩ := oneConflict_spec (conflictsB_drop hconf hu hr)
  rw [List.length_drop] at hi1
  apply hne
  have hq : q[u.length + i]? = (u ++ (r ++ Z))[u.length + i]? := by
    rw [← hTake, List.getElem?_take_of_lt (by omega)]
  rw [List.getElem?_drop, hq, List.getElem?_append_right (by omega)]
  rw [Nat.add_sub_cancel_left, List.getElem?_append_left hi2]

theorem no_inside_take {q r Z : JStr} {k : Nat} (hconf : ConflictsB q r = true)
    (hk : k < r.length) : ¬ (((r.drop k) ++ Z).take q.length = q) := by
  intro hTake
  obtain ⟨i, hi1, hi2, hne⟩ := oneConflict_spec (conflictsB_first hconf hk)
  apply hne
  have hq : q[i]? = ((r.drop k) ++ Z)[i]? := by
    rw [← hTake, List.getElem?_take_of_lt hi1]
  rw [hq, List.getElem?_append_left hi2]

theorem head?_append_left {x z : JStr} (h : x ≠ []) :
    (x ++ z).head? = x.head? := by
  cases x with
  | nil => exact absurd rfl h
  | cons c cs => rfl

theorem head?_eq_headD {x : JStr} (h : x ≠ []) :
    x.head? = some (x.headD ' ') := by
  cases x with
  | nil => exact absurd rfl h
  | cons c cs => rfl

/-- `matchPat` results agree in noneness on two strings sharing the
relevant prefix, the class of the following character, and the class of
the preceding character. -/
theorem matchPat_none_congr {wb : Bool} {q s t : JStr} {pv1 pv2 : Option Char}
    (h1 : s.take q.length = t.take q.length)
    (h2 : classOf (s.drop q.length).head? = classOf (t.drop q.length).head?)
    (hpv : classOf pv1 = classOf pv2) :
    matchPat wb pv1 q s = none ↔ matchPat wb pv2 q t = none := by
  cases q with
  | nil => simp [matchPat]
  | cons q0 qr =>
    simp only [matchPat]
    by_cases hs : s.take (q0 :: qr).length = q0 :: qr
    · have ht : t.take (q0 :: qr).length = q0 :: qr := by rw [← h1]; exact hs
      rw [if_pos hs, if_pos ht, hpv, h2]
      by_cases hc : (((!wb) || (classOf pv2 != isWordChar q0)) &&
          ((!wb) || (classOf (t.drop (q0 :: qr).length).head? !=
            isWordChar (List.getLastD (q0 :: qr) q0)))) = true
      · rw [if_pos hc, if_pos hc]; simp
      · rw [if_neg hc, if_neg hc]
    · have ht : ¬ (t.take (q0 :: qr).length = q0 :: qr) := by
        rw [← h1]; exact hs
      rw [if_neg hs, if_neg ht]

/-- Transfer of match failure from the input side (prefix `u`, then the
matched pattern block `pb`) to the output side (prefix `u`, then the
replacement `r`): a pattern fitting within `u` fails as it did before,
and a pattern reaching past `u` would overlap `r`, which the conflict
condition forbids. -/
theorem matchPat_transfer {wb : Bool} {q u pb X r Y : JStr}
    {pv1 pv2 : Option Char}
    (hpv : classOf pv1 = classOf pv2)
    (hpb : pb ≠ []) (hr : r ≠ [])
    (hcls : isWordChar (pb.headD ' ') = isWordChar (r.headD ' '))
    (hconf : ConflictsB q r = true)
    (hin : matchPat wb pv1 q (u ++ (pb ++ X)) = none) :
    matchPat wb pv2 q (u ++ (r ++ Y)) = none := by
  by_cases hql : q.length ≤ u.length
  · have h0 : q.length - u.length = 0 := by omega
    refine (matchPat_none_congr ?_ ?_ hpv).mp hin
    · have hs : (u ++ (pb ++ X)).take q.length =
          u.take q.length ++ (pb ++ X).take (q.length - u.length) :=
        List.take_append_eq_append_take
      have ht : (u ++ (r ++ Y)).take q.length =
          u.take q.length ++ (r ++ Y).take (q.length - u.length) :=
        List.take_append_eq_append_take
      rw [hs, ht, h0]
      simp
    · have hs : (u ++ (pb ++ X)).drop q.length =
          u.drop q.length ++ (pb ++ X).drop (q.length - u.length) :=
        List.drop_append_eq_append_drop
      have ht : (u ++ (r ++ Y)).drop q.length =
          u.drop q.length ++ (r ++ Y).drop (q.length - u.length) :=
        List.drop_append_eq_append_drop
      rw [hs, ht, h0]
      simp only [List.drop_zero]
      by_cases hlt : q.length < u.length
      · have hne : u.drop q.length ≠ [] := by
          intro hd
          have := congrArg List.length hd
          rw [List.length_drop] at this
          simp at this
          omega
        rw [head?_append_left hne, head?_append_left hne]
      · have heq : q.length = u.length := by omega
        have hd : u.drop q.length = [] := by
          rw [heq, List.drop_length]
        rw [hd]
        simp only [List.nil_append]
        rw [head?_append_left hpb, head?_append_left hr,
          head?_eq_headD hpb, head?_eq_headD hr]
        simp only [classOf, hcls]
  · exact matchPat_none_of_take (no_overlap_take hconf (by omega) hr)

/-- Transfer of `findMatch` failure across a replacement. -/
theorem findMatch_transfer {P : Rule} {u pb X r Y : JStr}
    {pv1 pv2 : Option Char}
    (hpv : classOf pv1 = classOf pv2)
    (hpb : pb ≠ []) (hr : r ≠ [])
    (hcls : isWordChar (pb.headD ' ') = isWordChar (r.headD ' '))
    (hconf : ∀ q ∈ P.pats, ConflictsB q r = true)
    (hin : findMatch P pv1 (u ++ (pb ++ X)) = none) :
    findMatch P pv2 (u ++ (r ++ Y)) = none := by
  unfold findMatch at hin ⊢
  rw [findMatchGo_none_iff] at hin ⊢
  intro q hq
  exact matchPat_transfer hpv hpb hr hcls (hconf q hq) (hin q hq)

/-- No match can start inside (a suffix of) a replacement occurrence. -/
theorem findMatch_none_inside {P : Rule} {r Z : JStr} {k : Nat}
    {pv : Option Char}
    (hconf : ∀ q ∈ P.pats, ConflictsB q r = true) (hk : k < r.length) :
    findMatch P pv ((r.drop k) ++ Z) = none := by
  unfold findMatch
  rw [findMatchGo_none_iff]
  intro q hq
  exact matchPat_none_of_take (no_inside_take (hconf q hq) hk)

/-! ### Structure of one global-replace pass -/

/-- Either a pass finds no match and copies its input, or the input
splits as a match-free region, the first match, and a remainder, and the
output is the region, the replacement, and the transformed remainder. -/
theorem characterize (R : Rule) :
    ∀ n : Nat, ∀ s : JStr, ∀ prev : Option Char, s.length ≤ n →
      (applyRule R prev s = s ∧ NoMatchF R prev s) ∨
      (∃ a p rest, s = a ++ (p ++ rest) ∧ p ∈ R.pats ∧ p ≠ [] ∧
        FreeBefore R prev a (p ++ rest) ∧
        findMatch R (prevAt prev a) (p ++ rest) = some (p, rest) ∧
        applyRule R prev s =
          a ++ (R.repl ++ applyRule R (some (p.getLastD ' ')) rest)) := by
  intro n
  induction n with
  | zero =>
    intro s prev hl
    have : s = [] := List.length_eq_zero.mp (Nat.le_zero.mp hl)
    subst this
    exact Or.inl ⟨rfl, noMatchF_nil⟩
  | succ m ih =>
    intro s prev hl
    cases s with
    | nil => exact Or.inl ⟨rfl, noMatchF_nil⟩
    | cons c cs =>
      cases hm : findMatch R prev (c :: cs) with
      | some pr =>
        obtain ⟨p, rest⟩ := pr
        have h3 := findMatch_eq_some hm
        right
        refine ⟨[], p, rest, by simpa using h3.2.2, h3.1, h3.2.1, ?_, ?_, ?_⟩
        · intro a1 c' a2 habs
          simp at habs
        · rw [prevAt_nil, ← h3.2.2]
          exact hm
        · rw [applyRule_cons_match hm]
          simp
      | none =>
        have hcs := ih cs (some c) (by simp only [List.length_cons] at hl; omega)
        cases hcs with
        | inl hleft =>
          left
          constructor
          · rw [applyRule_cons_noMatch hm, hleft.1]
          · intro a b hab
            cases a with
            | nil =>
              rw [prevAt_nil]
              rw [List.nil_append] at hab
              subst hab
              exact hm
            | cons x a' =>
              simp only [List.cons_append, List.cons.injEq] at hab
              obtain ⟨h1, h2⟩ := hab
              subst h1
              rw [prevAt_cons]
              exact hleft.2 a' b h2
        | inr hright =>
          obtain ⟨a, p, rest, hdec, hmem, hpne, hfree, hfound, heq⟩ := hright
          right
          refine ⟨c :: a, p, rest, ?_, hmem, hpne, ?_, ?_, ?_⟩
          · rw [List.cons_append, ← hdec]
          · intro a1 c' a2 habs
            cases a1 with
            | nil =>
              simp only [List.nil_append, List.cons.injEq] at habs
              obtain ⟨h1, h2⟩ := habs
              subst h1
              subst h2
              rw [prevAt_nil, ← hdec]
              exact hm
            | cons x a1' =>
              simp only [List.cons_append, List.cons.injEq] at habs
              obtain ⟨h1, h2⟩ := habs
              subst h1
              rw [prevAt_cons]
              exact hfree a1' c' a2 h2
          · rw [prevAt_cons]
            exact hfound
          · rw [applyRule_cons_noMatch hm, heq, List.cons_append]

theorem ruleEdgeOk_spec {R : Rule} (h : ruleEdgeOk R = true) :
    R.repl ≠ [] ∧ ∀ p ∈ R.pats, p ≠ [] ∧
      isWordChar (p.headD ' ') = isWordChar (R.repl.headD ' ') ∧
      isWordChar (p.getLastD ' ') = isWordChar (R.repl.getLastD ' ') := by
  unfold ruleEdgeOk at h
  rw [Bool.and_eq_true, List.all_eq_true] at h
  constructor
  · simpa using h.1
  · intro p hp
    have hh := h.2 p hp
    simp only [Bool.and_eq_true, beq_iff_eq, bne_iff_ne, ne_eq] at hh
    exact ⟨hh.1.1, hh.1.2, hh.2⟩

theorem classOf_prevAt_congr {pvIn pvOut : Option Char} {A : JStr}
    (hcl : classOf pvOut = classOf pvIn) :
    classOf (prevAt pvIn A) = classOf (prevAt pvOut A) := by
  cases A with
  | nil => simpa [prevAt_nil] using hcl.symm
  | cons x A' =>
    rw [@prevAt_of_ne_nil pvIn pvOut (x :: A') (by simp)]

theorem prevAt_append_full {pv : Option Char} {a r v : JStr} (hr : r ≠ []) :
    prevAt pv (a ++ (r ++ v)) = prevAt (some (r.getLastD ' ')) v := by
  rw [prevAt_append, prevAt_append, prevAt_eq_getLastD hr]

/-- A pass of `R` preserves the absence of matches of `P`, provided no
pattern of `P` can overlap the replacement text of `R` and `R` preserves
the word-character classes at the edges of what it replaces. -/
theorem noMatch_preserve (P R : Rule)
    (hconf : ∀ q ∈ P.pats, ConflictsB q R.repl = true)
    (hedge : ruleEdgeOk R = true) :
    ∀ n : Nat, ∀ s : JStr, ∀ pvIn pvOut : Option Char, s.length ≤ n →
      classOf pvOut = classOf pvIn →
      NoMatchF P pvIn s → NoMatchF P pvOut (applyRule R pvIn s) := by
  obtain ⟨hrepl, hpats⟩ := ruleEdgeOk_spec hedge
  intro n
  induction n with
  | zero =>
    intro s pvIn pvOut hl _ _
    have : s = [] := List.length_eq_zero.mp (Nat.le_zero.mp hl)
    subst this
    rw [applyRule_nil]
    exact noMatchF_nil
  | succ m ih =>
    intro s pvIn pvOut hl hcl hP
    rcases characterize R (m + 1) s pvIn hl with ⟨heq, _⟩ |
      ⟨a, p, rest, hdec, hmem, hpne, _hfree, _hfound, heq⟩
    · rw [heq]
      exact noMatchF_classOf_congr hcl.symm hP
    · rw [heq]
      have hpp := hpats p hmem
      have hplen : 1 ≤ p.length := by
        cases p with
        | nil => exact absurd rfl hpne
        | cons _ _ => simp
      have hrest_len : rest.length ≤ m := by
        have hld := congrArg List.length hdec
        simp only [List.length_append] at hld
        omega
      have hP' : NoMatchF P (some (p.getLastD ' ')) rest := by
        intro a1 b1 h1
        have h2 : s = ((a ++ p) ++ a1) ++ b1 := by
          rw [hdec, h1]
          simp [List.append_assoc]
        have h3 := hP ((a ++ p) ++ a1) b1 h2
        rw [prevAt_append, prevAt_append, prevAt_eq_getLastD hpne] at h3
        exact h3
      have hOut' : NoMatchF P (some (R.repl.getLastD ' '))
          (applyRule R (some (p.getLastD ' ')) rest) := by
        apply ih rest (some (p.getLastD ' ')) (some (R.repl.getLastD ' '))
          hrest_len ?_ hP'
        simp only [classOf]
        exact hpp.2.2.symm
      intro A B hAB
      rcases List.append_eq_append_iff.mp hAB.symm with ⟨w, hw1, hw2⟩ |
        ⟨w, hw1, hw2⟩
      case _ =>
        -- a = A ++ w : the split lands inside (or at the end of) the region a
        cases w with
        | nil =>
          rw [List.append_nil] at hw1
          subst hw1
          rw [List.nil_append] at hw2
          subst hw2
          have h0 : R.repl.drop 0 = R.repl := List.drop_zero _
          rw [← h0]
          exact findMatch_none_inside hconf (by
            cases hR : R.repl with
            | nil => exact absurd hR hrepl
            | cons _ _ => simp [hR])
        | cons c' w' =>
          have hin := hP A ((c' :: w') ++ (p ++ rest)) (by
            rw [hdec, hw1]
            simp [List.append_assoc])
          rw [hw2]
          exact findMatch_transfer (classOf_prevAt_congr hcl) hpne hrepl
            hpp.2.1 hconf hin
      case _ =>
        -- A = a ++ w and R.repl ++ out' = w ++ B : at or after the replacement
        rcases List.append_eq_append_iff.mp hw2 with ⟨v, hv1, hv2⟩ |
          ⟨v, hv1, hv2⟩
        · -- w = R.repl ++ v, out' = v ++ B : inside the transformed remainder
          have h4 := hOut' v B hv2
          subst hv1
          subst hw1
          rw [prevAt_append_full hrepl]
          exact h4
        · -- R.repl = w ++ v, B = v ++ out'
          cases v with
          | nil =>
            -- the split is exactly at the end of the replacement
            have h4 := hOut' []
              (applyRule R (some (List.getLastD p ' ')) rest)
              (by rw [List.nil_append])
            rw [prevAt_nil] at h4
            subst hw1
            rw [List.append_nil] at hv1
            subst hv1
            rw [List.nil_append] at hv2
            subst hv2
            rw [prevAt_append, prevAt_eq_getLastD hrepl]
            exact h4
          | cons c'' v' =>
            -- the split lands strictly inside the replacement
            have hk : w.length < R.repl.length := by
              have := congrArg List.length hv1
              simp only [List.length_append, List.length_cons] at this
              omega
            have hdropw : R.repl.drop w.length = c'' :: v' := by
              rw [hv1, List.drop_left]
            rw [hv2, ← hdropw]
            exact findMatch_none_inside hconf hk

/-- After a pass of `R` there is no match of `R` left, provided no
pattern of `R` can overlap its replacement text and the edge classes are
preserved. -/
theorem noMatch_self (R : Rule)
    (hconf : ∀ q ∈ R.pats, ConflictsB q R.repl = true)
    (hedge : ruleEdgeOk R = true) :
    ∀ n : Nat, ∀ s : JStr, ∀ pvIn pvOut : Option Char, s.length ≤ n →
      classOf pvOut = classOf pvIn →
      NoMatchF R pvOut (applyRule R pvIn s) := by
  obtain ⟨hrepl, hpats⟩ := ruleEdgeOk_spec hedge
  intro n
  induction n with
  | zero =>
    intro s pvIn pvOut hl _
    have : s = [] := List.length_eq_zero.mp (Nat.le_zero.mp hl)
    subst this
    rw [applyRule_nil]
    exact noMatchF_nil
  | succ m ih =>
    intro s pvIn pvOut hl hcl
    rcases characterize R (m + 1) s pvIn hl with ⟨heq, hnm⟩ |
      ⟨a, p, rest, hdec, hmem, hpne, hfree, _hfound, heq⟩
    · rw [heq]
      exact noMatchF_classOf_congr hcl.symm hnm
    · rw [heq]
      have hpp := hpats p hmem
      have hplen : 1 ≤ p.length := by
        cases p with
        | nil => exact absurd rfl hpne
        | cons _ _ => simp
      have hrest_len : rest.length ≤ m := by
        have hld := congrArg List.length hdec
        simp only [List.length_append] at hld
        omega
      have hOut' : NoMatchF R (some (R.repl.getLastD ' '))
          (applyRule R (some (p.getLastD ' ')) rest) := by
        apply ih rest (some (p.getLastD ' ')) (some (R.repl.getLastD ' '))
          hrest_len
        simp only [classOf]
        exact hpp.2.2.symm
      intro A B hAB
      rcases List.append_eq_append_iff.mp hAB.symm with ⟨w, hw1, hw2⟩ |
        ⟨w, hw1, hw2⟩
      case _ =>
        -- a = A ++ w : the split lands inside (or at the end of) the region a
        cases w with
        | nil =>
          rw [List.append_nil] at hw1
          subst hw1
          rw [List.nil_append] at hw2
          subst hw2
          have h0 : R.repl.drop 0 = R.repl := List.drop_zero _
          rw [← h0]
          exact findMatch_none_inside hconf (by
            cases hR : R.repl with
            | nil => exact absurd hR hrepl
            | cons _ _ => simp [hR])
        | cons c' w' =>
          have hin := hfree A c' w' hw1
          rw [← List.cons_append] at hin
          rw [hw2]
          exact findMatch_transfer (classOf_prevAt_congr hcl) hpne hrepl
            hpp.2.1 hconf hin
      case _ =>
        -- A = a ++ w and R.repl ++ out' = w ++ B : at or after the replacement
        rcases List.append_eq_append_iff.mp hw2 with ⟨v, hv1, hv2⟩ |
          ⟨v, hv1, hv2⟩
        · -- w = R.repl ++ v, out' = v ++ B : inside the transformed remainder
          have h4 := hOut' v B hv2
          subst hv1
          subst hw1
          rw [prevAt_append_full hrepl]
          exact h4
        · -- R.repl = w ++ v, B = v ++ out'
          cases v with
          | nil =>
            have h4 := hOut' []
              (applyRule R (some (List.getLastD p ' ')) rest)
              (by rw [List.nil_append])
            rw [prevAt_nil] at h4
            subst hw1
            rw [List.append_nil] at hv1
            subst hv1
            rw [List.nil_append] at hv2
            subst hv2
            rw [prevAt_append, prevAt_eq_getLastD hrepl]
            exact h4
          | cons c'' v' =>
            have hk : w.length < R.repl.length := by
              have := congrArg List.length hv1
              simp only [List.length_append, List.length_cons] at this
              omega
            have hdropw : R.repl.drop w.length = c'' :: v' := by
              rw [hv1, List.drop_left]
            rw [hv2, ← hdropw]
            exact findMatch_none_inside hconf hk

theorem laterOk_cases {P R : Rule} (h : laterOk P R = true) :
    isIdRule R = true ∨
      (ruleEdgeOk R = true ∧ ∀ q ∈ P.pats, ConflictsB q R.repl = true) := by
  unfold laterOk at h
  rw [Bool.or_eq_true] at h
  rcases h with h | h
  · exact Or.inl h
  · rw [Bool.and_eq_true, List.all_eq_true] at h
    exact Or.inr ⟨h.1, h.2⟩

theorem selfOk_cases {R : Rule} (h : selfOk R = true) :
    isIdRule R = true ∨
      (ruleEdgeOk R = true ∧ ∀ q ∈ R.pats, ConflictsB q R.repl = true) := by
  unfold selfOk at h
  rw [Bool.or_eq_true] at h
  rcases h with h | h
  · exact Or.inl h
  · rw [Bool.and_eq_true, List.all_eq_true] at h
    exact Or.inr ⟨h.1, h.2⟩

theorem noMatchF_foldRules {P : Rule} :
    ∀ rs : List Rule, rs.all (laterOk P) = true →
      ∀ u, NoMatchF P none u → NoMatchF P none (foldRules rs u) := by
  intro rs
  induction rs with
  | nil => intro _ u hu; exact hu
  | cons R rest ih =>
    intro hall u hu
    rw [List.all_cons, Bool.and_eq_true] at hall
    have hstep : NoMatchF P none (applyRule R none u) := by
      rcases laterOk_cases hall.1 with hid | ⟨hedge, hconf⟩
      · rw [applyRule_isIdRule hid u.length u none (Nat.le_refl _)]
        exact hu
      · exact noMatch_preserve P R hconf hedge u.length u none none
          (Nat.le_refl _) rfl hu
    exact ih hall.2 _ hstep

theorem applyRule_foldRules :
    ∀ rs : List Rule, rulesOk rs = true →
      ∀ S ∈ rs, ∀ t, applyRule S none (foldRules rs t) = foldRules rs t := by
  intro rs
  induction rs with
  | nil => intro _ S hS; simp at hS
  | cons R rest ih =>
    intro hok S hS t
    unfold rulesOk at hok
    rw [Bool.and_eq_true, Bool.and_eq_true] at hok
    obtain ⟨⟨hself, hlater⟩, hrest⟩ := hok
    have hfold : foldRules (R :: rest) t = foldRules rest (applyRule R none t) :=
      rfl
    rcases List.mem_cons.mp hS with rfl | hS'
    · rw [hfold]
      rcases selfOk_cases hself with hid | ⟨hedge, hconf⟩
      · exact applyRule_isIdRule hid _ _ none (Nat.le_refl _)
      · have h1 : NoMatchF S none (applyRule S none t) :=
          noMatch_self S hconf hedge t.length t none none (Nat.le_refl _) rfl
        exact applyRule_of_noMatchF (noMatchF_foldRules rest hlater _ h1)
    · rw [hfold]
      exact ih hrest S hS' _

theorem foldRules_fixed :
    ∀ rs : List Rule, ∀ t : JStr,
      (∀ S ∈ rs, applyRule S none t = t) → foldRules rs t = t := by
  intro rs
  induction rs with
  | nil => intro t _; rfl
  | cons R rest ih =>
    intro t h
    have hfold : foldRules (R :: rest) t = foldRules rest (applyRule R none t) :=
      rfl
    rw [hfold, h R (List.mem_cons_self _ _)]
    exact ih t (fun S hS => h S (List.mem_cons_of_mem _ hS))

/-- The rule tables of `convertToUTF8` satisfy all side conditions
(checked by computation). -/
theorem rulesOk_normRules : rulesOk normRules = true := by decide

theorem convertToUTF8_idem (s : JStr) :
    convertToUTF8 (convertToUTF8 s) = convertToUTF8 s := by
  unfold convertToUTF8
  by_cases hs : s = []
  · simp [hs]
  · rw [if_neg hs]
    by_cases ht : foldRules normRules s = []
    · rw [if_pos ht]
    · rw [if_neg ht]
      exact foldRules_fixed normRules _
        (fun S hS => applyRule_foldRules normRules rulesOk_normRules S hS s)

/-! ### Claim theorems -/

/-- C9: the text normalizer is idempotent — for every string `s`,
`normalizeText (normalizeText s) = normalizeText s`.  Hence re-normalizing
the name and state components when `processLocations` rebuilds its map
keys cannot change an already-normalized component. -/
theorem normalizeText_idem (s : JStr) :
    normalizeText (normalizeText s) = normalizeText s := by
  unfold normalizeText
  by_cases hs : s = []
  · simp [hs]
  · rw [if_neg hs]
    by_cases ht : convertToUTF8 s = []
    · rw [if_pos ht]
    · rw [if_neg ht]
      exact convertToUTF8_idem s

/-- C1: the Canonical Location Key derivations of `processLocations` and
`processPriceData` are NOT identical: on the parsed row of the CSV line
`4;Usada;;;1;2020;100,5` (a recognized property-type label with empty
state and municipality), `processLocations` derives the national key
while `processPriceData` derives no key at all — its four-way
classification has no property-type case, so the row is skipped. -/
theorem locationKey_derivations_disagree :
    parseCSV usadaCSV = [usadaRow] ∧
    locationSetEntry usadaRow = some natKey ∧
    rowLocationKey usadaRow = none := by decide

/-- C2: a parsed `Usada` row with empty state and municipality passes
the residential filter and `processLocations` maps the national key to a
location identifier, yet `processPriceData` produces NO price record for
it (the row is tallied as skipped), contrary to the claimed national
record with the `usada` property type. -/
theorem usada_row_yields_no_record :
    isResidentialRow usadaRow = true ∧
    mapGet (processLocations okEnv [usadaRow]).locationMap natKey =
      some "L0".data ∧
    processPriceData okEnv [usadaRow]
        (processLocations okEnv [usadaRow]).locationMap =
      { records := [], processed := 0, skipped := 1, effects := [] } := by
  decide

/-- C3 counterexample: the parsed row of `1;Nacional;;;1;2020;abc` has an
index text that does not parse as a decimal (`parseFloat` gives NaN), yet
the Price Record Builder does NOT skip it: it produces a record carrying
the NaN index value, and that record is handed to the Batch Persister. -/
theorem nan_indice_row_not_skipped :
    parseCSV nanCSV = [nanRow] ∧
    jsParseFloat nanRow.indice = JSNum.nan ∧
    buildPrice okEnv [nanRow] [(natKey, "L1".data)] =
      ([{ location_id := "L1".data, property_type_id := none, quarter := 1,
          year := 2020, index_value := JSNum.nan }], 1, 0) ∧
    (processPriceData okEnv [nanRow] [(natKey, "L1".data)]).effects =
      [Effect.batchUpserted 0 [⟨"L1".data, none, 1, 2020, JSNum.nan⟩] true] := by
  decide

/-- C3 (amended): the Price Record Builder skips a classified row only
when its location key is missing or resolves to nothing (or to a falsy
identifier); whenever the location resolves, the row yields exactly one
record whose index value is the `parseFloat` of the index text — NaN
included, so unparsable index text flows through to the Batch Persister
instead of skipping the row. -/
theorem builder_skips_only_unresolved (env : Env) (k : Nat)
    (locationMap : List (JStr × JStr)) (row : SHFDataRow) (key locId : JStr)
    (hk : rowLocationKey row = some key)
    (hm : mapGet locationMap key = some locId)
    (hne : locId ≠ []) :
    ∃ rec, buildRecord env k locationMap row = some rec ∧
      rec.index_value = jsParseFloat row.indice := by
  simp only [buildRecord, hk, hm, if_neg hne]
  exact ⟨_, rfl, rfl⟩

theorem builder_skips_only_unresolved_witness :
    rowLocationKey nanRow = some natKey ∧
    mapGet [(natKey, "L1".data)] natKey = some "L1".data ∧
    "L1".data ≠ ([] : JStr) ∧
    ∃ rec, buildRecord okEnv 0 [(natKey, "L1".data)] nanRow = some rec ∧
      rec.index_value = jsParseFloat nanRow.indice :=
  ⟨by decide, by decide, by decide,
    builder_skips_only_unresolved okEnv 0 [(natKey, "L1".data)] nanRow natKey
      "L1".data (by decide) (by decide) (by decide)⟩

/-- C6: a persisted national location agreeing with the candidate on
name and type and, like it, carrying no state, is NOT reused: the
persisted state is `null` while the candidate's is `undefined`, the
strict equality fails, and the resolver inserts a fresh location (`L2`)
instead of reusing `L1`. -/
theorem stateless_location_not_reused :
    natPersisted.name = (keyToLocation natKey).name ∧
    natPersisted.type = (keyToLocation natKey).type ∧
    natPersisted.state = none ∧ (keyToLocation natKey).state = none ∧
    findExisting [natPersisted] (keyToLocation natKey) = none ∧
    processLocations c6Env [nacionalRow] =
      { locationMap := [(natKey, "L2".data)],
        createdLocs := [keyToLocation natKey],
        existingCount := 0,
        effects := [Effect.locInserted (keyToLocation natKey) true] } := by
  decide

/-- C4 counterexample: with the property-type read failing, an
unrecoverable error escapes the pipeline after the upload log entry was
created, yet the orchestrator never writes a `failed` status: the trace
holds only the creation, the entry stays in `processing`, and the
message is reported only in the returned result. -/
theorem failed_status_never_written_at_pt_error :
    (processCSV ptErrEnv "header".data "f.csv".data).1 =
      { success := false, recordsProcessed := 0,
        error := some "Failed to get property types: boom".data } ∧
    (processCSV ptErrEnv "header".data "f.csv".data).2 =
      [Effect.logCreated "f.csv".data] ∧
    finalLogStatus (processCSV ptErrEnv "header".data "f.csv".data).2 =
      some UploadStatus.processing := by decide

/-! ### Shape of the effect trace -/

theorem processLocationsGo_effects (env : Env) :
    ∀ cands : List ProcessedLocation, ∀ k : Nat, ∀ acc : LocOutcome,
      (∀ e ∈ acc.effects, ∃ l b, e = Effect.locInserted l b) →
      ∀ e ∈ (processLocationsGo env k cands acc).effects,
        ∃ l b, e = Effect.locInserted l b := by
  intro cands
  induction cands with
  | nil => intro k acc hacc e he; exact hacc e he
  | cons cand rest ih =>
    intro k acc hacc e he
    cases hg : env.getLocations k with
    | error m =>
      simp only [processLocationsGo, hg] at he
      exact ih _ _ hacc e he
    | ok locs =>
      cases hf : findExisting locs cand with
      | some ex =>
        simp only [processLocationsGo, hg, hf] at he
        refine ih _ _ ?_ e he
        intro e' he'
        exact hacc e' he'
      | none =>
        cases hi : env.insertLocation k with
        | error m =>
          simp only [processLocationsGo, hg, hf, hi] at he
          refine ih _ _ ?_ e he
          intro e' he'
          simp only [List.mem_append, List.mem_singleton] at he'
          rcases he' with h | h
          · exact hacc e' h
          · exact ⟨cand, false, h⟩
        | ok newId =>
          simp only [processLocationsGo, hg, hf, hi] at he
          refine ih _ _ ?_ e he
          intro e' he'
          simp only [List.mem_append, List.mem_singleton] at he'
          rcases he' with h | h
          · exact hacc e' h
          · exact ⟨cand, true, h⟩

theorem processLocations_effects (env : Env) (rows : List SHFDataRow) :
    ∀ e ∈ (processLocations env rows).effects,
      ∃ l b, e = Effect.locInserted l b := by
  refine processLocationsGo_effects env _ 0 _ ?_
  intro e he
  simp at he

theorem persistBatches_effects (env : Env) (recs : List ProcessedPriceData) :
    ∀ e ∈ persistBatches env recs,
      ∃ i b ok, e = Effect.batchUpserted i b ok := by
  intro e he
  unfold persistBatches at he
  rw [List.mem_map] at he
  obtain ⟨ib, _, heq⟩ := he
  exact ⟨ib.1, ib.2, env.batchOk ib.1, heq.symm⟩

theorem finalLogStatus_none_of_no_log (fx : List Effect)
    (h : ∀ e ∈ fx, (∀ f, e ≠ Effect.logCreated f) ∧
      (∀ s n, e ≠ Effect.logUpdated s n)) :
    finalLogStatus fx = none := by
  induction fx with
  | nil => rfl
  | cons e fx' ih =>
    have hrest := ih (fun e' he' => h e' (List.mem_cons_of_mem _ he'))
    have he := h e (List.mem_cons_self _ _)
    simp only [finalLogStatus, hrest]
    cases e with
    | logCreated f => exact absurd rfl (he.1 f)
    | logUpdated s n => exact absurd rfl (he.2 s n)
    | locInserted l b => rfl
    | batchUpserted i b ok => rfl

theorem finalLogStatus_created_no_update (f : JStr) (fx : List Effect)
    (h : ∀ e ∈ fx, (∀ f', e ≠ Effect.logCreated f') ∧
      (∀ s n, e ≠ Effect.logUpdated s n)) :
    finalLogStatus (Effect.logCreated f :: fx) =
      some UploadStatus.processing := by
  simp only [finalLogStatus, finalLogStatus_none_of_no_log fx h]

theorem non_log_of_locInserted {e : Effect}
    (h : ∃ l b, e = Effect.locInserted l b) :
    (∀ f, e ≠ Effect.logCreated f) ∧ (∀ s n, e ≠ Effect.logUpdated s n) := by
  obtain ⟨l, b, rfl⟩ := h
  exact ⟨(fun f h => nomatch h), (fun s n h => nomatch h)⟩

theorem non_log_of_batch {e : Effect}
    (h : ∃ i b ok, e = Effect.batchUpserted i b ok) :
    (∀ f, e ≠ Effect.logCreated f) ∧ (∀ s n, e ≠ Effect.logUpdated s n) := by
  obtain ⟨i, b, ok, rfl⟩ := h
  exact ⟨(fun f h => nomatch h), (fun s n h => nomatch h)⟩

/-- C4 (amended): the orchestrator never writes the `failed` status at
all; when an unrecoverable error escapes the pipeline after the upload
log entry was created (a failing property-type read or a failing final
update), the failure description is returned only in the structured
result, no update is written to the entry, and it remains `processing`. -/
theorem failed_status_never_written (env : Env) (c f : JStr) :
    (∀ n : Nat,
      Effect.logUpdated UploadStatus.failed n ∉ (processCSV env c f).2) ∧
    (∀ lid m, env.createLog = Except.ok lid →
      (env.pt0 = Except.error m ∨ env.updateLog = Except.error m) →
      ((processCSV env c f).1.success = false ∧
       ((processCSV env c f).1.error).isSome = true ∧
       finalLogStatus (processCSV env c f).2 =
         some UploadStatus.processing)) := by
  cases hcl : env.createLog with
  | error m0 =>
    constructor
    · intro n hn
      simp only [processCSV, hcl] at hn
      simp at hn
    · intro lid m h1 _
      simp at h1
  | ok lid0 =>
    have hloc := processLocations_effects env (pipelineRows c)
    cases hpt : env.pt0 with
    | error m1 =>
      constructor
      · intro n hn
        simp only [processCSV, hcl, hpt] at hn
        rcases List.mem_cons.mp hn with h | h
        · cases h
        · exact absurd rfl ((non_log_of_locInserted (hloc _ h)).2 _ n)
      · intro lid m _ _
        refine ⟨?_, ?_, ?_⟩
        · simp [processCSV, hcl, hpt]
        · simp [processCSV, hcl, hpt]
        · simp only [processCSV, hcl, hpt]
          exact finalLogStatus_created_no_update _ _
            (fun e he => non_log_of_locInserted (hloc e he))
    | ok u =>
      cases u
      have hbat := persistBatches_effects env
        (processPriceData env (pipelineRows c)
          (processLocations env (pipelineRows c)).locationMap).records
      have hmix : ∀ e ∈ (processLocations env (pipelineRows c)).effects ++
          (processPriceData env (pipelineRows c)
            (processLocations env (pipelineRows c)).locationMap).effects,
          (∀ f', e ≠ Effect.logCreated f') ∧
          (∀ s n, e ≠ Effect.logUpdated s n) := by
        intro e he
        rcases List.mem_append.mp he with h | h
        · exact non_log_of_locInserted (hloc e h)
        · refine non_log_of_batch ?_
          apply hbat
          have : (processPriceData env (pipelineRows c)
              (processLocations env (pipelineRows c)).locationMap).effects =
              persistBatches env (processPriceData env (pipelineRows c)
                (processLocations env (pipelineRows c)).locationMap).records := by
            unfold processPriceData
            rfl
          rwa [this] at h
      cases hul : env.updateLog with
      | error m2 =>
        constructor
        · intro n hn
          simp only [processCSV, hcl, hpt, hul] at hn
          rw [List.cons_append] at hn
          rcases List.mem_cons.mp hn with h | h
          · cases h
          · exact absurd rfl ((hmix _ h).2 _ n)
        · intro lid m _ _
          refine ⟨?_, ?_, ?_⟩
          · simp [processCSV, hcl, hpt, hul]
          · simp [processCSV, hcl, hpt, hul]
          · simp only [processCSV, hcl, hpt, hul]
            rw [List.cons_append]
            exact finalLogStatus_created_no_update _ _ hmix
      | ok u2 =>
        cases u2
        constructor
        · intro n hn
          simp only [processCSV, hcl, hpt, hul] at hn
          rcases List.mem_append.mp hn with h | h
          · rcases List.mem_append.mp h with h2 | h2
            · rcases List.mem_cons.mp h2 with h3 | h3
              · cases h3
              · exact absurd rfl ((non_log_of_locInserted (hloc _ h3)).2 _ n)
            · have hpe : (processPriceData env (pipelineRows c)
                  (processLocations env (pipelineRows c)).locationMap).effects =
                  persistBatches env (processPriceData env (pipelineRows c)
                    (processLocations env (pipelineRows c)).locationMap).records := by
                unfold processPriceData
                rfl
              rw [hpe] at h2
              exact absurd rfl ((non_log_of_batch (hbat _ h2)).2 _ n)
          · simp only [List.mem_singleton] at h
            cases h
        · intro lid m h1 h2
          rcases h2 with h2 | h2
          · simp at h2
          · simp at h2

theorem failed_status_never_written_witness :
    (∀ n : Nat, Effect.logUpdated UploadStatus.failed n ∉
      (processCSV ptErrEnv "header".data "f.csv".data).2) ∧
    ((processCSV ptErrEnv "header".data "f.csv".data).1.success = false ∧
     ((processCSV ptErrEnv "header".data "f.csv".data).1.error).isSome = true ∧
     finalLogStatus (processCSV ptErrEnv "header".data "f.csv".data).2 =
       some UploadStatus.processing) :=
  ⟨(failed_status_never_written ptErrEnv "header".data "f.csv".data).1,
   (failed_status_never_written ptErrEnv "header".data "f.csv".data).2
     "log1".data "boom".data rfl (Or.inl rfl)⟩

/-- C7: when an unexpected exception occurs after the upload log entry
is created (a failing property-type read or a failing final update), the
ingest operation returns a structured `{success := false,
recordsProcessed := 0, error := message}` result instead of propagating
the exception, no further update is issued to the upload log entry, and
the entry is left in `processing` state. -/
theorem orchestrator_returns_structured_failure (env : Env) (c f lid m : JStr)
    (hcl : env.createLog = Except.ok lid)
    (herr : env.pt0 = Except.error m ∨ env.updateLog = Except.error m) :
    (processCSV env c f).1.success = false ∧
    (processCSV env c f).1.recordsProcessed = 0 ∧
    ((processCSV env c f).1.error).isSome = true ∧
    (∀ s n, Effect.logUpdated s n ∉ (processCSV env c f).2) ∧
    finalLogStatus (processCSV env c f).2 = some UploadStatus.processing := by
  have hloc := processLocations_effects env (pipelineRows c)
  cases hpt : env.pt0 with
  | error m1 =>
    refine ⟨by simp [processCSV, hcl, hpt], by simp [processCSV, hcl, hpt],
      by simp [processCSV, hcl, hpt], ?_, ?_⟩
    · intro s n hn
      simp only [processCSV, hcl, hpt] at hn
      rcases List.mem_cons.mp hn with h | h
      · cases h
      · exact absurd rfl ((non_log_of_locInserted (hloc _ h)).2 s n)
    · simp only [processCSV, hcl, hpt]
      exact finalLogStatus_created_no_update _ _
        (fun e he => non_log_of_locInserted (hloc e he))
  | ok u =>
    cases u
    have herr2 : env.updateLog = Except.error m := by
      rcases herr with h | h
      · rw [hpt] at h; cases h
      · exact h
    have hbat := persistBatches_effects env
      (processPriceData env (pipelineRows c)
        (processLocations env (pipelineRows c)).locationMap).records
    have hpe : (processPriceData env (pipelineRows c)
        (processLocations env (pipelineRows c)).locationMap).effects =
        persistBatches env (processPriceData env (pipelineRows c)
          (processLocations env (pipelineRows c)).locationMap).records := by
      unfold processPriceData
      rfl
    have hmix : ∀ e ∈ (processLocations env (pipelineRows c)).effects ++
        (processPriceData env (pipelineRows c)
          (processLocations env (pipelineRows c)).locationMap).effects,
        (∀ f', e ≠ Effect.logCreated f') ∧
        (∀ s n, e ≠ Effect.logUpdated s n) := by
      intro e he
      rcases List.mem_append.mp he with h | h
      · exact non_log_of_locInserted (hloc e h)
      · rw [hpe] at h
        exact non_log_of_batch (hbat e h)
    refine ⟨by simp [processCSV, hcl, hpt, herr2],
      by simp [processCSV, hcl, hpt, herr2],
      by simp [processCSV, hcl, hpt, herr2], ?_, ?_⟩
    · intro s n hn
      simp only [processCSV, hcl, hpt, herr2] at hn
      rw [List.cons_append] at hn
      rcases List.mem_cons.mp hn with h | h
      · cases h
      · exact absurd rfl ((hmix _ h).2 s n)
    · simp only [processCSV, hcl, hpt, herr2]
      rw [List.cons_append]
      exact finalLogStatus_created_no_update _ _ hmix

theorem orchestrator_returns_structured_failure_witness :
    (updErrEnv.createLog = Except.ok "log1".data) ∧
    (updErrEnv.pt0 = Except.error "update failed".data ∨
      updErrEnv.updateLog = Except.error "update failed".data) ∧
    ((processCSV updErrEnv twoRowCSV "f.csv".data).1.success = false ∧
     (processCSV updErrEnv twoRowCSV "f.csv".data).1.recordsProcessed = 0 ∧
     ((processCSV updErrEnv twoRowCSV "f.csv".data).1.error).isSome = true ∧
     (∀ s n, Effect.logUpdated s n ∉
        (processCSV updErrEnv twoRowCSV "f.csv".data).2) ∧
     finalLogStatus (processCSV updErrEnv twoRowCSV "f.csv".data).2 =
       some UploadStatus.processing) :=
  ⟨rfl, Or.inr rfl,
    orchestrator_returns_structured_failure updErrEnv twoRowCSV "f.csv".data
      "log1".data "update failed".data rfl (Or.inr rfl)⟩

/-! ### Batching lemmas -/

theorem chunkGo_join {α : Type} (n : Nat) :
    ∀ xs acc k, (chunkGo n (α := α) acc xs k).join = acc.reverse ++ xs := by
  intro xs
  induction xs with
  | nil => intro acc k; simp [chunkGo]
  | cons x xs ih =>
    intro acc k
    cases k with
    | zero => simp [chunkGo, ih]
    | succ k' => simp [chunkGo, ih]

theorem chunksOf_join {α : Type} (n : Nat) (l : List α) :
    (chunksOf n l).join = l := by
  cases l with
  | nil => rfl
  | cons x xs => simp [chunksOf, chunkGo_join]

theorem chunkGo_le {α : Type} (n : Nat) (hn : 1 ≤ n) :
    ∀ xs : List α, ∀ acc k, acc.length + k ≤ n →
      ∀ b ∈ chunkGo n acc xs k, b.length ≤ n := by
  intro xs
  induction xs with
  | nil =>
    intro acc k hk b hb
    simp only [chunkGo, List.mem_singleton] at hb
    subst hb
    simp only [List.length_reverse]
    omega
  | cons x xs ih =>
    intro acc k hk b hb
    cases k with
    | zero =>
      simp only [chunkGo, List.mem_cons] at hb
      rcases hb with rfl | hb
      · simp only [List.length_reverse]; omega
      · exact ih [x] (n - 1) (by simp; omega) b hb
    | succ k' =>
      simp only [chunkGo] at hb
      exact ih (x :: acc) k' (by simp at hk ⊢; omega) b hb

theorem chunksOf_le {α : Type} (n : Nat) (hn : 1 ≤ n) (l : List α) :
    ∀ b ∈ chunksOf n l, b.length ≤ n := by
  cases l with
  | nil => intro b hb; simp [chunksOf] at hb
  | cons x xs =>
    intro b hb
    exact chunkGo_le n hn xs [x] (n - 1) (by simp; omega) b hb

theorem applyEffects_append (tbl : List ProcessedPriceData)
    (fx1 fx2 : List Effect) :
    applyEffects tbl (fx1 ++ fx2) = applyEffects (applyEffects tbl fx1) fx2 := by
  unfold applyEffects
  exact List.foldl_append _ _ _ _

theorem applyEffects_locOnly (fx : List Effect)
    (h : ∀ e ∈ fx, ∃ l b, e = Effect.locInserted l b) :
    ∀ tbl, applyEffects tbl fx = tbl := by
  induction fx with
  | nil => intro tbl; rfl
  | cons e fx' ih =>
    intro tbl
    obtain ⟨l, b, rfl⟩ := h e (List.mem_cons_self _ _)
    have hstep : applyEffects tbl (Effect.locInserted l b :: fx') =
        applyEffects tbl fx' := rfl
    rw [hstep]
    exact ih (fun e' he' => h e' (List.mem_cons_of_mem _ he')) tbl

theorem applyEffects_persist (env : Env) (recs : List ProcessedPriceData)
    (tbl : List ProcessedPriceData) :
    applyEffects tbl (persistBatches env recs) =
      (chunksOf 1000 recs).enum.foldl
        (fun acc ib =>
          if env.batchOk ib.1 then ib.2.foldl upsertOne acc else acc) tbl := by
  unfold applyEffects persistBatches
  rw [List.foldl_map]
  apply List.foldl_ext
  intro acc ib _
  cases hok : env.batchOk ib.1 <;> simp [hok]

/-- C5: the Batch Persister partitions the prepared records into
consecutive chunks of at most 1000; even when some batch's upsert fails,
every batch is still attempted exactly once in order (failures only
flagged), the replayed table keeps every successful batch (upserts only,
no rollback), and the run still returns `success := true` with
`recordsProcessed` equal to the number of records prepared before
persistence began. -/
theorem batch_persistence_tolerates_failures (env : Env) (c f lid : JStr)
    (hcl : env.createLog = Except.ok lid)
    (hpt : env.pt0 = Except.ok ())
    (hul : env.updateLog = Except.ok ())
    (hfail : ∃ i, i < (chunksOf 1000 (preparedRecords env c)).length ∧
      env.batchOk i = false) :
    (processCSV env c f).1 =
      { success := true,
        recordsProcessed := (preparedRecords env c).length, error := none } ∧
    batchEffects (processCSV env c f).2 =
      ((chunksOf 1000 (preparedRecords env c)).enum).map
        (fun ib => Effect.batchUpserted ib.1 ib.2 (env.batchOk ib.1)) ∧
    (chunksOf 1000 (preparedRecords env c)).join = preparedRecords env c ∧
    (∀ b ∈ chunksOf 1000 (preparedRecords env c), b.length ≤ 1000) ∧
    (∀ tbl, applyEffects tbl (processCSV env c f).2 =
      (chunksOf 1000 (preparedRecords env c)).enum.foldl
        (fun acc ib =>
          if env.batchOk ib.1 then ib.2.foldl upsertOne acc else acc) tbl) := by
  clear hfail
  have hloc := processLocations_effects env (pipelineRows c)
  have hpe : (processPriceData env (pipelineRows c)
      (processLocations env (pipelineRows c)).locationMap).effects =
      persistBatches env (preparedRecords env c) := by
    unfold processPriceData preparedRecords
    rfl
  have htrace : (processCSV env c f).2 =
      (Effect.logCreated f :: (processLocations env (pipelineRows c)).effects ++
        persistBatches env (preparedRecords env c)) ++
      [Effect.logUpdated UploadStatus.completed
        (preparedRecords env c).length] := by
    simp only [processCSV, hcl, hpt, hul, hpe]
    rfl
  refine ⟨by simp only [processCSV, hcl, hpt, hul]; rfl, ?_, ?_, ?_, ?_⟩
  · rw [htrace]
    unfold batchEffects
    rw [List.filter_append, List.cons_append, List.filter_cons,
      List.filter_append]
    have h1 : List.filter (fun e =>
        match e with
        | Effect.batchUpserted _ _ _ => true
        | _ => false) (processLocations env (pipelineRows c)).effects = [] := by
      rw [List.filter_eq_nil]
      intro e he
      obtain ⟨l, b, rfl⟩ := hloc e he
      simp
    have h2 : List.filter (fun e =>
        match e with
        | Effect.batchUpserted _ _ _ => true
        | _ => false) (persistBatches env (preparedRecords env c)) =
        persistBatches env (preparedRecords env c) := by
      rw [List.filter_eq_self]
      intro e he
      obtain ⟨i, b, ok, rfl⟩ := persistBatches_effects env _ e he
      simp
    rw [h1, h2]
    simp [persistBatches]
  · exact chunksOf_join 1000 _
  · exact chunksOf_le 1000 (by omega) _
  · intro tbl
    rw [htrace, applyEffects_append, List.cons_append, ← List.cons_append,
      applyEffects_append]
    have hc : applyEffects tbl
        [Effect.logCreated f] = tbl := rfl
    have hu : ∀ t : List ProcessedPriceData, applyEffects t
        [Effect.logUpdated UploadStatus.completed
          (preparedRecords env c).length] = t := fun t => rfl
    rw [show (Effect.logCreated f :: (processLocations env (pipelineRows c)).effects) =
      [Effect.logCreated f] ++ (processLocations env (pipelineRows c)).effects
      from rfl, applyEffects_append, hc,
      applyEffects_locOnly _ hloc tbl, applyEffects_persist, hu]

theorem batch_persistence_tolerates_failures_witness :
    (batchFailEnv.createLog = Except.ok "log1".data) ∧
    (batchFailEnv.pt0 = Except.ok ()) ∧
    (batchFailEnv.updateLog = Except.ok ()) ∧
    (∃ i, i < (chunksOf 1000 (preparedRecords batchFailEnv twoRowCSV)).length ∧
      batchFailEnv.batchOk i = false) ∧
    ((processCSV batchFailEnv twoRowCSV "f.csv".data).1 =
      { success := true,
        recordsProcessed := (preparedRecords batchFailEnv twoRowCSV).length,
        error := none } ∧
     batchEffects (processCSV batchFailEnv twoRowCSV "f.csv".data).2 =
      ((chunksOf 1000 (preparedRecords batchFailEnv twoRowCSV)).enum).map
        (fun ib => Effect.batchUpserted ib.1 ib.2 (batchFailEnv.batchOk ib.1)) ∧
     (chunksOf 1000 (preparedRecords batchFailEnv twoRowCSV)).join =
       preparedRecords batchFailEnv twoRowCSV ∧
     (∀ b ∈ chunksOf 1000 (preparedRecords batchFailEnv twoRowCSV),
       b.length ≤ 1000) ∧
     (∀ tbl, applyEffects tbl (processCSV batchFailEnv twoRowCSV "f.csv".data).2 =
       (chunksOf 1000 (preparedRecords batchFailEnv twoRowCSV)).enum.foldl
         (fun acc ib =>
           if batchFailEnv.batchOk ib.1 then ib.2.foldl upsertOne acc else acc)
         tbl)) :=
  ⟨rfl, rfl, rfl, ⟨0, by decide, rfl⟩,
    batch_persistence_tolerates_failures batchFailEnv twoRowCSV "f.csv".data
      "log1".data rfl rfl rfl ⟨0, by decide, rfl⟩⟩

/-- C10: whenever the ingest operation (`processCSV` or `processSHFCSV`)
returns `success = false`, the reported `recordsProcessed` is exactly 0 —
every failure path returns the literal 0, even when batches were already
committed before the failure. -/
theorem failure_results_report_zero (env : Env) (c f : JStr) :
    ((processCSV env c f).1.success = false →
      (processCSV env c f).1.recordsProcessed = 0) ∧
    (∀ readOk : Bool, (processSHFCSV env readOk c f).1.success = false →
      (processSHFCSV env readOk c f).1.recordsProcessed = 0) := by
  have hmain : (processCSV env c f).1.success = false →
      (processCSV env c f).1.recordsProcessed = 0 := by
    cases hcl : env.createLog with
    | error m => intro _; simp [processCSV, hcl]
    | ok lid =>
      cases hpt : env.pt0 with
      | error m => intro _; simp [processCSV, hcl, hpt]
      | ok u =>
        cases u
        cases hul : env.updateLog with
        | error m => intro _; simp [processCSV, hcl, hpt, hul]
        | ok u2 =>
          cases u2
          intro h
          simp [processCSV, hcl, hpt, hul] at h
  refine ⟨hmain, ?_⟩
  intro readOk
  cases readOk with
  | false => intro _; rfl
  | true =>
    intro h
    have hr : processSHFCSV env true c f = processCSV env c f := rfl
    rw [hr] at h ⊢
    exact hmain h

theorem failure_results_report_zero_witness :
    (processCSV clErrEnv "header".data "f.csv".data).1.success = false ∧
    (processCSV clErrEnv "header".data "f.csv".data).1.recordsProcessed = 0 :=
  ⟨by decide,
    (failure_results_report_zero clErrEnv "header".data "f.csv".data).1
      (by decide)⟩

/-- C8: the Row Parser skips the header line (it processes only the
lines after the first), and a post-header line yields no Raw Row exactly
when it is blank after trimming or splits into fewer than 7
semicolon-separated fields; every other line yields exactly one Raw Row,
and no line can raise an error (the parser is a total function). -/
theorem parser_characterization :
    (∀ content : JStr, parseCSV content =
      ((splitOnChar '\n' content).drop 1).filterMap parseRowLine) ∧
    (∀ l : JStr, parseRowLine l = none ↔
      (jsTrim l = [] ∨ (splitOnChar ';' (jsTrim l)).length < 7)) := by
  constructor
  · intro content
    unfold parseCSV
    generalize (splitOnChar '\n' content).drop 1 = ls
    induction ls with
    | nil => rfl
    | cons l ls ih =>
      simp only [parseCSVGo, List.filterMap_cons]
      cases h : parseRowLine l with
      | none => simp [h, ih]
      | some r => simp [h, ih]
  · intro l
    by_cases h1 : jsTrim l = []
    · simp [parseRowLine, h1]
    · by_cases h2 : (splitOnChar ';' (jsTrim l)).length < 7
      · simp [parseRowLine, h1, h2]
      · simp [parseRowLine, h1, h2]
